import Mathlib

/-! # music-inspector: the library scan and the `/play` handler of `src/index.js`

A shallow embedding of `findMusicFiles`, of the `GET /` handler's sort and of the
`GET /play/*filePath` handler, together with the parts of the JavaScript runtime they call
(`String.prototype` helpers, `parseInt`, the POSIX flavour of Node's `path` module).

Conventions of the embedding.

* Strings are Lean strings; every string function works on the character list `String.data`.
* JavaScript numbers are `JSNumber`: `NaN` or an integer.  Doubles are exact on the safe
  integer range, so theorems about numbers read from a header bound them by `2 ^ 53`.
* The filesystem is an interface `FS` of two functions on path strings, `readdirSync` and
  `stat`; what is on disk is described separately by a tree of `Node`s.
* `path` is `path.posix`: the separator is `/` and a backslash is an ordinary character.
-/

namespace MusicInspector

/-! ## JavaScript strings and numbers -/

/-- JavaScript `String.prototype.startsWith`: `pre` is an initial part of `s`. -/
def startsWith (s pre : String) : Bool :=
  pre.data.isPrefixOf s.data

/-- JavaScript `String.prototype.toLowerCase()` on the ASCII letters.  The result is only ever
compared with the ASCII keys `.mp3 .flac .wav .ogg .m4a`; the two non-ASCII characters that
JavaScript lower-cases into ASCII give `k` and `i`, which occur in none of the keys. -/
def toLowerCase (s : String) : String :=
  String.mk (s.data.map Char.toLower)

/-- Line 52, `s.replace(/\\/g, '/')`: every backslash becomes a forward slash. -/
def replaceBackslashes (s : String) : String :=
  String.mk (s.data.map fun c => if c = '\\' then '/' else c)

/-- JavaScript `s.replace(/pat/, '')` for a literal pattern: the first occurrence of `pat` is
removed. -/
def removeFirst (pat : List Char) : List Char → List Char
  | [] => []
  | c :: cs => if pat.isPrefixOf (c :: cs) then (c :: cs).drop pat.length
               else c :: removeFirst pat cs

/-- JavaScript `s.split(sep)`: the pieces between the separators, at least one piece. -/
def split (sep : Char) (s : String) : List String :=
  (s.data.splitOn sep).map String.mk

/-- A JavaScript number as this program meets it: `NaN` or an integer. -/
inductive JSNumber where
  | nan : JSNumber
  | int (v : Int) : JSNumber
  deriving DecidableEq

namespace JSNumber

/-- JavaScript `a - b`. -/
def sub : JSNumber → JSNumber → JSNumber
  | int a, int b => int (a - b)
  | _, _ => nan

/-- JavaScript `a + b` on numbers. -/
def add : JSNumber → JSNumber → JSNumber
  | int a, int b => int (a + b)
  | _, _ => nan

/-- The string a template literal puts for a number. -/
def toJSString : JSNumber → String
  | nan => "NaN"
  | int (Int.ofNat n) => Nat.repr n
  | int (Int.negSucc n) => "-" ++ Nat.repr (n + 1)

end JSNumber

/-- The characters `parseInt` skips at the start of its argument (`StrWhiteSpaceChar`). -/
def isJSWhiteSpace (c : Char) : Bool :=
  c.toNat ∈ [0x09, 0x0A, 0x0B, 0x0C, 0x0D, 0x20, 0xA0, 0x1680, 0x2028, 0x2029, 0x202F,
    0x205F, 0x3000, 0xFEFF] || (0x2000 ≤ c.toNat && c.toNat ≤ 0x200A)

/-- Value of a decimal digit character. -/
def digitValue (c : Char) : Option Nat :=
  if 48 ≤ c.toNat ∧ c.toNat ≤ 57 then some (c.toNat - 48) else none

/-- The longest prefix of decimal digits, read as a number; `acc` is `none` until the first
digit is seen. -/
def parseDigits : List Char → Option Nat → Option Nat
  | [], acc => acc
  | c :: cs, acc =>
    match digitValue c with
    | some d => parseDigits cs (some (acc.getD 0 * 10 + d))
    | none => acc

/-- JavaScript `parseInt(s, 10)`: skip white space, take an optional sign, read the longest
run of decimal digits from there; `NaN` when there is no digit. -/
def parseInt (s : String) : JSNumber :=
  let cs := s.data.dropWhile isJSWhiteSpace
  let signed : Bool × List Char :=
    match cs with
    | '-' :: r => (true, r)
    | '+' :: r => (false, r)
    | _ => (false, cs)
  match parseDigits signed.2 none with
  | none => JSNumber.nan
  | some n => JSNumber.int (if signed.1 then -(n : Int) else (n : Int))

/-! ## Node's `path` module (POSIX) -/

namespace path

/-- One segment of `normalizeString`: empty segments and `.` are dropped, `..` removes the last
segment kept (or is kept itself above the start of a relative path), anything else is kept.
`stack` holds the kept segments, last one first. -/
def pushSegment (allowAboveRoot : Bool) (stack : List (List Char)) (seg : List Char) :
    List (List Char) :=
  if seg = [] ∨ seg = ['.'] then stack
  else if seg = ['.', '.'] then
    match stack with
    | [] => if allowAboveRoot then [seg] else []
    | top :: rest =>
      if top = ['.', '.'] then (if allowAboveRoot then seg :: stack else stack) else rest
  else seg :: stack

/-- Node's `normalizeString(path, allowAboveRoot, '/')`: resolves `.` and `..` segments. -/
def normalizeString (p : List Char) (allowAboveRoot : Bool) : List Char :=
  ['/'].intercalate ((p.splitOn '/').foldl (pushSegment allowAboveRoot) []).reverse

/-- Node's `path.normalize(p)`. -/
def normalize (p : String) : String :=
  if p.data = [] then "."
  else
    let isAbsolute : Bool := p.data.head? = some '/'
    let trailingSeparator : Bool := p.data.getLast? = some '/'
    let q := normalizeString p.data (!isAbsolute)
    if q = [] then
      if isAbsolute then "/" else if trailingSeparator then "./" else "."
    else
      let q := if trailingSeparator then q ++ ['/'] else q
      String.mk (if isAbsolute then '/' :: q else q)

/-- Node's `path.join(...args)`: the non-empty arguments joined by `/`, then normalised. -/
def join (args : List String) : String :=
  match args.filter (fun a => a.data ≠ []) with
  | [] => "."
  | parts => normalize (String.mk (['/'].intercalate (parts.map String.data)))

/-- Loop state of `path.extname`; `-1` stands for "not set" as in the source. -/
structure ExtState where
  startDot : Int
  startPart : Int
  stop : Int
  matchedSlash : Bool
  preDotState : Int
  done : Bool

/-- One iteration of the backwards loop of `path.extname` at index `i`. -/
def extStep (st : ExtState) (ic : Nat × Char) : ExtState :=
  if st.done then st
  else if ic.2 = '/' then
    if !st.matchedSlash then { st with startPart := ic.1 + 1, done := true } else st
  else
    let st := if st.stop = -1 then { st with matchedSlash := false, stop := ic.1 + 1 } else st
    if ic.2 = '.' then
      if st.startDot = -1 then { st with startDot := ic.1 }
      else if st.preDotState ≠ 1 then { st with preDotState := 1 } else st
    else if st.startDot ≠ -1 then { st with preDotState := -1 } else st

/-- The loop state of `path.extname` before the first iteration. -/
def initialExtState : ExtState :=
  { startDot := -1, startPart := 0, stop := -1, matchedSlash := true, preDotState := 0,
    done := false }

/-- Node's `path.extname(p)`: from the last `.` of the last path segment to its end; empty when
there is no dot, when the dot starts the segment, or when the segment is `..`. -/
def extname (p : String) : String :=
  let st := (p.data.enum.reverse).foldl extStep initialExtState
  if st.startDot = -1 ∨ st.stop = -1 ∨ st.preDotState = 0 ∨
      (st.preDotState = 1 ∧ st.startDot = st.stop - 1 ∧ st.startDot = st.startPart + 1) then ""
  else String.mk ((p.data.take st.stop.toNat).drop st.startDot.toNat)

end path

/-! ## The filesystem interface and the program's constants -/

/-- The fields of `fs.Stats` the program reads: `size`, and `mtime.getTime()` in milliseconds. -/
structure Stats where
  size : Nat
  mtime : Int
  deriving DecidableEq

/-- A `fs.Dirent` as `readdirSync(dir, { withFileTypes: true })` returns it. -/
structure Dirent where
  name : String
  isDirectory : Bool
  isFile : Bool
  deriving DecidableEq

/-- The error of a failed `stat`: `err.code === 'ENOENT'`, or any other error with its message. -/
inductive StatError where
  | ENOENT : StatError
  | other (message : String) : StatError
  deriving DecidableEq

/-- The filesystem as the program sees it.  `readdirSync p = none` means the call throws. -/
structure FS where
  readdirSync : String → Option (List Dirent)
  stat : String → Except StatError Stats

/-- Node's `fs.statSync(p)`: the same system call as `fs.stat`; `none` means it throws. -/
def FS.statSync (fs : FS) (p : String) : Option Stats :=
  match fs.stat p with
  | Except.ok stats => some stats
  | Except.error _ => none

/-- Line 13, the set `SUPPORTED_EXTENSIONS`. -/
def SUPPORTED_EXTENSIONS : List String := [".mp3", ".flac", ".wav", ".ogg", ".m4a"]

/-- Lines 14-20, the table `MIME_TYPES`. -/
def MIME_TYPES : List (String × String) :=
  [(".mp3", "audio/mpeg"), (".flac", "audio/flac"), (".wav", "audio/wav"),
   (".ogg", "audio/ogg"), (".m4a", "audio/mp4")]

/-- An element of the array `findMusicFiles` returns: `{ path, mtime }`. -/
structure TrackEntry where
  path : String
  mtime : Int
  deriving DecidableEq

/-! ## `findMusicFiles` (lines 36-62) -/

/-- The test of lines 47-48 on a directory entry that is not a directory. -/
def isMusicFile (entry : Dirent) : Bool :=
  entry.isFile && SUPPORTED_EXTENSIONS.contains (toLowerCase (path.extname entry.name))

/-- The `for (const entry of entries)` loop inside the `try` block.  `files` is the array built
so far; `recurse` is the recursive call `findMusicFiles(baseDir, ·)`.  A throwing `statSync`
leaves the loop for the `catch` block, after which `files` is returned as it stands.  `none`
only when a recursive call ran out of fuel. -/
def forLoop (recurse : String → Option (List TrackEntry)) (fs : FS) (baseDir currentDir : String) :
    List Dirent → List TrackEntry → Option (List TrackEntry)
  | [], files => some files
  | entry :: rest, files =>
    let entryRelativePath := path.join [currentDir, entry.name]
    if entry.isDirectory then
      match recurse entryRelativePath with
      | none => none
      | some found => forLoop recurse fs baseDir currentDir rest (files ++ found)
    else if isMusicFile entry then
      match fs.statSync (path.join [baseDir, entryRelativePath]) with
      | none => some files
      | some stats =>
        forLoop recurse fs baseDir currentDir rest
          (files ++ [{ path := replaceBackslashes entryRelativePath, mtime := stats.mtime }])
    else forLoop recurse fs baseDir currentDir rest files

/-- The function `findMusicFiles(baseDir, currentDir)`.  The first argument after `baseDir`
bounds the depth of the recursion: `none` means the bound was reached, `some files` is the
returned array.  A throwing `readdirSync` is caught and the empty array returned. -/
def findMusicFiles (fs : FS) (baseDir : String) : Nat → String → Option (List TrackEntry)
  | 0, _ => none
  | fuel + 1, currentDir =>
    let fullCurrentDir := path.join [baseDir, currentDir]
    match fs.readdirSync fullCurrentDir with
    | none => some []
    | some entries => forLoop (findMusicFiles fs baseDir fuel) fs baseDir currentDir entries []

/-! ## `GET /` (lines 72-79) -/

/-- The comparator of line 74: `b.mtime.getTime() - a.mtime.getTime()`. -/
def compareMtime (a b : TrackEntry) : Int :=
  b.mtime - a.mtime

/-- JavaScript `Array.prototype.sort(compare)`: a stable sort, `a` staying before `b` when
`compare(a, b) <= 0`.  For a consistent comparator the result does not depend on the sorting
algorithm; insertion sort is used here. -/
def arraySort {α : Type} (compare : α → α → Int) (xs : List α) : List α :=
  xs.insertionSort (fun a b => compare a b ≤ 0)

/-- The `files` value the `GET /` handler hands to the template. -/
def indexHandler (fs : FS) (MUSIC_DIR : String) (fuel : Nat) : Option (List TrackEntry) :=
  (findMusicFiles fs MUSIC_DIR fuel "").map (arraySort compareMtime)

/-! ## `GET /play/*filePath` (lines 88-136) -/

/-- A header value: a string or a number. -/
inductive HeaderValue where
  | str (s : String) : HeaderValue
  | num (n : JSNumber) : HeaderValue
  deriving DecidableEq

/-- A response body: a text sent with `res.send`, or a read stream piped into the response,
with the inclusive byte span `{ start, end }` it was opened with, if any. -/
inductive Body where
  | text (s : String) : Body
  | stream (file : String) (span : Option (JSNumber × JSNumber)) : Body
  deriving DecidableEq

/-- Status, the headers the handler sets itself, and the body. -/
structure Response where
  status : Nat
  headers : List (String × HeaderValue)
  body : Body
  deriving DecidableEq

/-- A filesystem call made by the handler. -/
inductive FsCall where
  | stat (file : String) : FsCall
  | createReadStream (file : String) (span : Option (JSNumber × JSNumber)) : FsCall
  deriving DecidableEq

/-- What one request does: the filesystem calls in order, and the response; `none` when the
handler threw before writing one. -/
structure Handled where
  calls : List FsCall
  response : Option Response
  deriving DecidableEq

/-- JavaScript `Number.MAX_SAFE_INTEGER`. -/
def MAX_SAFE_INTEGER : Int := 2 ^ 53 - 1

/-- Node's argument check in `fs.createReadStream(path, { start, end })`: both must be integers
in `[0, MAX_SAFE_INTEGER]` with `start <= end`, otherwise the call throws a `RangeError`. -/
def createReadStreamAccepts (start stop : JSNumber) : Bool :=
  match start, stop with
  | JSNumber.int s, JSNumber.int e =>
    decide (0 ≤ s ∧ s ≤ MAX_SAFE_INTEGER ∧ 0 ≤ e ∧ e ≤ MAX_SAFE_INTEGER ∧ s ≤ e)
  | _, _ => false

/-- Lines 108-109: `MIME_TYPES[ext] || 'application/octet-stream'` for the lower-cased
extension of the file. -/
def contentTypeOf (fullFilePath : String) : String :=
  (MIME_TYPES.lookup (toLowerCase (path.extname fullFilePath))).getD "application/octet-stream"

/-- Line 112: `range.replace(/bytes=/, '').split('-')`. -/
def rangeParts (range : String) : List String :=
  split '-' (String.mk (removeFirst "bytes=".data range.data))

/-- The `if (range)` branch, lines 112-126. -/
def rangeBranch (fullFilePath : String) (fileSize : JSNumber) (contentType range : String) :
    Handled :=
  let parts := rangeParts range
  let start := parseInt (parts.headD "")
  let stop :=
    match parts.get? 1 with
    | some p => if p.data ≠ [] then parseInt p else fileSize.sub (JSNumber.int 1)
    | none => fileSize.sub (JSNumber.int 1)
  let chunksize := (stop.sub start).add (JSNumber.int 1)
  if createReadStreamAccepts start stop then
    { calls := [FsCall.stat fullFilePath,
        FsCall.createReadStream fullFilePath (some (start, stop))],
      response := some
        { status := 206,
          headers :=
            [("Content-Range", HeaderValue.str
                ("bytes " ++ start.toJSString ++ "-" ++ stop.toJSString ++ "/" ++
                  fileSize.toJSString)),
             ("Accept-Ranges", HeaderValue.str "bytes"),
             ("Content-Length", HeaderValue.num chunksize),
             ("Content-Type", HeaderValue.str contentType)],
          body := Body.stream fullFilePath (some (start, stop)) } }
  else
    { calls := [FsCall.stat fullFilePath,
        FsCall.createReadStream fullFilePath (some (start, stop))],
      response := none }

/-- The partial-content answer for the inclusive byte span `[a, b]` of a file of `fileSize`
bytes: the stream is opened with `{ start: a, end: b }`, then status 206 is written with
`Content-Range: bytes a-b/fileSize`, `Accept-Ranges: bytes`, `Content-Length: b - a + 1` and the
content type, and the stream is piped into the response. -/
def rangeResponse (fullFilePath contentType : String) (fileSize a b : Nat) : Handled :=
  { calls := [FsCall.stat fullFilePath,
      FsCall.createReadStream fullFilePath (some (JSNumber.int a, JSNumber.int b))],
    response := some
      { status := 206,
        headers :=
          [("Content-Range", HeaderValue.str
              ("bytes " ++ Nat.repr a ++ "-" ++ Nat.repr b ++ "/" ++ Nat.repr fileSize)),
           ("Accept-Ranges", HeaderValue.str "bytes"),
           ("Content-Length", HeaderValue.num (JSNumber.int ((b : Int) - (a : Int) + 1))),
           ("Content-Type", HeaderValue.str contentType)],
        body := Body.stream fullFilePath (some (JSNumber.int a, JSNumber.int b)) } }

/-- The handler of `GET /play/*filePath`.  `filePathParam` is `req.params.filePath[0]`, the
path string the router captured; `range` is `req.headers.range`. -/
def playHandler (fs : FS) (MUSIC_DIR filePathParam : String) (range : Option String) : Handled :=
  let fullFilePath := path.join [MUSIC_DIR, filePathParam]
  if !startsWith fullFilePath MUSIC_DIR then
    { calls := [],
      response := some
        { status := 403, headers := [], body := Body.text "Forbidden: Access is denied." } }
  else
    match fs.stat fullFilePath with
    | Except.error StatError.ENOENT =>
      { calls := [FsCall.stat fullFilePath],
        response := some { status := 404, headers := [], body := Body.text "File not found." } }
    | Except.error (StatError.other message) =>
      { calls := [FsCall.stat fullFilePath],
        response := some { status := 500, headers := [], body := Body.text message } }
    | Except.ok stats =>
      let fileSize := JSNumber.int stats.size
      let contentType := contentTypeOf fullFilePath
      match range.filter (fun r => r.data ≠ []) with
      | some r => rangeBranch fullFilePath fileSize contentType r
      | none =>
        { calls := [FsCall.stat fullFilePath, FsCall.createReadStream fullFilePath none],
          response := some
            { status := 200,
              headers := [("Content-Length", HeaderValue.num fileSize),
                          ("Content-Type", HeaderValue.str contentType)],
              body := Body.stream fullFilePath none } }

/-! ## What is on disk

The program only sees `FS`.  To say what a scan should find, the content of the music directory
is described as a tree, and `Library.onDisk` states that an `FS` shows exactly that tree at the
absolute paths of its entries. -/

/-- An entry of a directory.  A `file` is a regular file with what `stat` reports for it; a `dir`
is a directory with its entries; `other` is anything else (socket, FIFO, symbolic link, …), for
which both `isDirectory()` and `isFile()` are false.  `statFails` and `readdirFails` say that
`statSync` of the file, respectively `readdirSync` of the directory, throws. -/
inductive Node where
  | file (name : String) (stats : Stats) (statFails : Bool) : Node
  | dir (name : String) (children : List Node) (readdirFails : Bool) : Node
  | other (name : String) : Node

/-- The `Dirent` that `readdirSync` gives for an entry. -/
def Node.dirent : Node → Dirent
  | Node.file name _ _ => { name := name, isDirectory := false, isFile := true }
  | Node.dir name _ _ => { name := name, isDirectory := true, isFile := false }
  | Node.other name => { name := name, isDirectory := false, isFile := false }

/-- A name a directory entry can have: not empty, without `/`, and neither `.` nor `..`. -/
def validName (name : String) : Prop :=
  name.data ≠ [] ∧ '/' ∉ name.data ∧ name.data ≠ ['.'] ∧ name.data ≠ ['.', '.']

instance (name : String) : Decidable (validName name) := by
  unfold validName
  infer_instance

/-- The absolute path with the given segments: `/` followed by the segments joined by `/`. -/
def absolutePath (segments : List String) : String :=
  String.mk ('/' :: ['/'].intercalate (segments.map String.data))

/-- The relative path with the given names joined by `/`; empty for no name. -/
def relativePath (names : List String) : String :=
  String.mk (['/'].intercalate (names.map String.data))

mutual
/-- The filesystem `fs` shows the entry at its absolute path: `root` are the segments of the
music directory, `dir` the names leading from there to the directory that holds the entry. -/
def Node.onDisk (fs : FS) (root dir : List String) : Node → Prop
  | Node.file name stats statFails =>
    fs.statSync (absolutePath (root ++ (dir ++ [name]))) = if statFails then none else some stats
  | Node.dir name children readdirFails =>
    if readdirFails then fs.readdirSync (absolutePath (root ++ (dir ++ [name]))) = none
    else
      fs.readdirSync (absolutePath (root ++ (dir ++ [name]))) = some (children.map Node.dirent) ∧
      Node.allOnDisk fs root (dir ++ [name]) children
  | Node.other _ => True
/-- The filesystem `fs` shows every entry of the list, all held by the directory `dir`. -/
def Node.allOnDisk (fs : FS) (root dir : List String) : List Node → Prop
  | [] => True
  | n :: ns => Node.onDisk fs root dir n ∧ Node.allOnDisk fs root dir ns
end

/-- The filesystem `fs` shows the music directory `root` with the entries `children`;
`readdirFails` says that reading the music directory itself throws. -/
def Library.onDisk (fs : FS) (root : List String) (children : List Node) (readdirFails : Bool) :
    Prop :=
  if readdirFails then fs.readdirSync (absolutePath root) = none
  else
    fs.readdirSync (absolutePath root) = some (children.map Node.dirent) ∧
    Node.allOnDisk fs root [] children

mutual
/-- Every name in the subtree is a valid entry name. -/
def Node.wellNamed : Node → Prop
  | Node.file name _ _ => validName name
  | Node.dir name children _ => validName name ∧ Node.allWellNamed children
  | Node.other name => validName name
/-- Every name in the list of subtrees is a valid entry name. -/
def Node.allWellNamed : List Node → Prop
  | [] => True
  | n :: ns => Node.wellNamed n ∧ Node.allWellNamed ns
end

mutual
/-- No `readdirSync` and no `statSync` fails in the subtree. -/
def Node.noFailure : Node → Bool
  | Node.file _ _ statFails => !statFails
  | Node.dir _ children readdirFails => !readdirFails && Node.allNoFailure children
  | Node.other _ => true
/-- No `readdirSync` and no `statSync` fails in the subtrees. -/
def Node.allNoFailure : List Node → Bool
  | [] => true
  | n :: ns => Node.noFailure n && Node.allNoFailure ns
end

mutual
/-- No `statSync` fails in the subtree (directories may be unreadable). -/
def Node.statsSucceed : Node → Bool
  | Node.file _ _ statFails => !statFails
  | Node.dir _ children _ => Node.allStatsSucceed children
  | Node.other _ => true
/-- No `statSync` fails in the subtrees. -/
def Node.allStatsSucceed : List Node → Bool
  | [] => true
  | n :: ns => Node.statsSucceed n && Node.allStatsSucceed ns
end

mutual
/-- Number of nested directory levels in the subtree. -/
def Node.depth : Node → Nat
  | Node.file _ _ _ => 0
  | Node.dir _ children _ => Node.depthAll children + 1
  | Node.other _ => 0
/-- The largest depth among the subtrees. -/
def Node.depthAll : List Node → Nat
  | [] => 0
  | n :: ns => max (Node.depth n) (Node.depthAll ns)
end

/-- A regular file of the tree: the names of the directories leading to it, its name and what
`stat` reports. -/
structure DiskFile where
  dir : List String
  name : String
  stats : Stats
  deriving DecidableEq

mutual
/-- The regular files of the subtree, at any depth, in directory order. -/
def Node.files (dir : List String) : Node → List DiskFile
  | Node.file name stats _ => [{ dir := dir, name := name, stats := stats }]
  | Node.dir name children _ => Node.allFiles (dir ++ [name]) children
  | Node.other _ => []
/-- The regular files of the subtrees, in directory order. -/
def Node.allFiles (dir : List String) : List Node → List DiskFile
  | [] => []
  | n :: ns => Node.files dir n ++ Node.allFiles dir ns
end

/-- The extension of the name, lower-cased, is one of `SUPPORTED_EXTENSIONS`. -/
def hasMusicExtension (name : String) : Bool :=
  SUPPORTED_EXTENSIONS.contains (toLowerCase (path.extname name))

/-- The entry lines 51-54 build for a file: its relative path with every backslash replaced by
`/` (line 52), and its modification time. -/
def DiskFile.entry (f : DiskFile) : TrackEntry :=
  { path := replaceBackslashes (relativePath (f.dir ++ [f.name])), mtime := f.stats.mtime }

/-- The entries lines 51-54 build for the regular files of the tree whose extension is
supported, in directory order. -/
def musicEntries (children : List Node) : List TrackEntry :=
  ((Node.allFiles [] children).filter (fun f => hasMusicExtension f.name)).map DiskFile.entry

/-- The entry the spec asks for a file: its path relative to the music directory, the names
joined by `/`, and its modification time. -/
def DiskFile.expectedEntry (f : DiskFile) : TrackEntry :=
  { path := relativePath (f.dir ++ [f.name]), mtime := f.stats.mtime }

/-- The scan result the spec asks for: one entry for every regular file of the tree whose
extension is supported, each with the file's own root-relative path, and nothing else. -/
def expectedEntries (children : List Node) : List TrackEntry :=
  ((Node.allFiles [] children).filter (fun f => hasMusicExtension f.name)).map
    DiskFile.expectedEntry

mutual
/-- What the loop of `findMusicFiles` gathers from one entry held by the directory `dir`;
`none` when `statSync` throws on it. -/
def Node.scan (dir : List String) : Node → Option (List TrackEntry)
  | Node.file name stats statFails =>
    if hasMusicExtension name then
      if statFails then none
      else some [DiskFile.entry { dir := dir, name := name, stats := stats }]
    else some []
  | Node.dir name children readdirFails =>
    some (if readdirFails then [] else Node.scanAll (dir ++ [name]) children)
  | Node.other _ => some []
/-- What the loop of `findMusicFiles` gathers from the entries of the directory `dir`: it stops
at the first entry whose `statSync` throws. -/
def Node.scanAll (dir : List String) : List Node → List TrackEntry
  | [] => []
  | n :: ns =>
    match Node.scan dir n with
    | none => []
    | some found => found ++ Node.scanAll dir ns
end

mutual
/-- The same subtree with every unreadable directory replaced by a readable, empty one. -/
def Node.emptied : Node → Node
  | Node.file name stats statFails => Node.file name stats statFails
  | Node.dir name children readdirFails =>
    if readdirFails then Node.dir name [] false else Node.dir name (Node.allEmptied children) false
  | Node.other name => Node.other name
/-- The same subtrees with every unreadable directory replaced by a readable, empty one. -/
def Node.allEmptied : List Node → List Node
  | [] => []
  | n :: ns => Node.emptied n :: Node.allEmptied ns
end

mutual
/-- The same subtree when no call fails. -/
def Node.healed : Node → Node
  | Node.file name stats _ => Node.file name stats false
  | Node.dir name children _ => Node.dir name (Node.allHealed children) false
  | Node.other name => Node.other name
/-- The same subtrees when no call fails. -/
def Node.allHealed : List Node → List Node
  | [] => []
  | n :: ns => Node.healed n :: Node.allHealed ns
end

/-! ## What the spec expects of the content type -/

/-- The part of a name after its last dot; `none` when the name has no dot. -/
def afterLastDot : List Char → Option (List Char)
  | [] => none
  | c :: cs =>
    match afterLastDot cs with
    | some e => some e
    | none => if c = '.' then some cs else none

/-- The extension of a file name: from its last dot to its end; empty when the name has no
dot after its first character, and for the name `..`. -/
def fileExtension (name : String) : String :=
  match name.data with
  | [] => ""
  | _ :: cs =>
    match afterLastDot cs with
    | some e => if name.data = ['.', '.'] then "" else String.mk ('.' :: e)
    | none => ""

/-- The content type the spec gives to a file name: the table entry of its lower-cased
extension, `application/octet-stream` when the table has none. -/
def expectedContentType (name : String) : String :=
  let ext := String.mk ((fileExtension name).data.map Char.toLower)
  if ext = ".mp3" then "audio/mpeg"
  else if ext = ".flac" then "audio/flac"
  else if ext = ".wav" then "audio/wav"
  else if ext = ".ogg" then "audio/ogg"
  else if ext = ".m4a" then "audio/mp4"
  else "application/octet-stream"

/-- The answer for a whole file: it is stat-ed, a stream is opened on it without a span, status
200 is written with `Content-Length` the file's size and the content type, and the stream is
piped into the response. -/
def wholeFile (fullFilePath contentType : String) (fileSize : Nat) : Handled :=
  { calls := [FsCall.stat fullFilePath, FsCall.createReadStream fullFilePath none],
    response := some
      { status := 200,
        headers := [("Content-Length", HeaderValue.num (JSNumber.int fileSize)),
                    ("Content-Type", HeaderValue.str contentType)],
        body := Body.stream fullFilePath none } }

/-! ## Concrete filesystems used in the examples -/

/-- The root `/srv/music` is empty; next to it the directory `/srv/music2` holds `x.mp3`,
5 bytes. -/
def siblingFS : FS where
  readdirSync := fun p =>
    if p = "/srv/music" then some []
    else if p = "/srv/music2" then some [{ name := "x.mp3", isDirectory := false, isFile := true }]
    else none
  stat := fun p =>
    if p = "/srv/music2/x.mp3" then Except.ok { size := 5, mtime := 0 }
    else Except.error StatError.ENOENT

/-- The root `/music` holds one file `a.mp3` of 1000 bytes. -/
def thousandFS : FS where
  readdirSync := fun p =>
    if p = "/music" then some [{ name := "a.mp3", isDirectory := false, isFile := true }]
    else none
  stat := fun p =>
    if p = "/music/a.mp3" then Except.ok { size := 1000, mtime := 0 }
    else Except.error StatError.ENOENT

/-- The root `/music` holds one file whose name is `a\b.mp3` (a backslash in the name),
12 bytes, modified at time 7. -/
def backslashFS : FS where
  readdirSync := fun p =>
    if p = "/music" then some [{ name := "a\\b.mp3", isDirectory := false, isFile := true }]
    else none
  stat := fun p =>
    if p = "/music/a\\b.mp3" then Except.ok { size := 12, mtime := 7 }
    else Except.error StatError.ENOENT

/-- The entries of an example music directory `/music`: `a.mp3`, a directory `rock` holding
`b.FLAC`, `notes.txt` and a directory `live` with `c.ogg`, a directory `locked` holding `e.wav`,
a directory `jazz` holding `d.m4a` and `f.mp3`, and a socket.  `lockedFails` makes `locked`
unreadable, `statFails` makes `statSync` throw on `jazz/d.m4a`. -/
def exampleLibrary (lockedFails statFails : Bool) : List Node :=
  [Node.file "a.mp3" { size := 100, mtime := 30 } false,
   Node.dir "rock"
     [Node.file "b.FLAC" { size := 200, mtime := 10 } false,
      Node.file "notes.txt" { size := 5, mtime := 11 } false,
      Node.dir "live" [Node.file "c.ogg" { size := 300, mtime := 20 } false] false] false,
   Node.dir "locked" [Node.file "e.wav" { size := 400, mtime := 50 } false] lockedFails,
   Node.dir "jazz"
     [Node.file "d.m4a" { size := 500, mtime := 40 } statFails,
      Node.file "f.mp3" { size := 600, mtime := 60 } false] false,
   Node.other "sock"]

/-- A filesystem showing the example music directory at `/music`.  `locked` is what
`readdirSync` gives for `/music/locked`; `statFails` makes `stat` fail on
`/music/jazz/d.m4a`. -/
def exampleFS (locked : Option (List Dirent)) (statFails : Bool) : FS where
  readdirSync := fun p =>
    if p = "/music" then
      some [{ name := "a.mp3", isDirectory := false, isFile := true },
            { name := "rock", isDirectory := true, isFile := false },
            { name := "locked", isDirectory := true, isFile := false },
            { name := "jazz", isDirectory := true, isFile := false },
            { name := "sock", isDirectory := false, isFile := false }]
    else if p = "/music/rock" then
      some [{ name := "b.FLAC", isDirectory := false, isFile := true },
            { name := "notes.txt", isDirectory := false, isFile := true },
            { name := "live", isDirectory := true, isFile := false }]
    else if p = "/music/rock/live" then
      some [{ name := "c.ogg", isDirectory := false, isFile := true }]
    else if p = "/music/locked" then locked
    else if p = "/music/jazz" then
      some [{ name := "d.m4a", isDirectory := false, isFile := true },
            { name := "f.mp3", isDirectory := false, isFile := true }]
    else none
  stat := fun p =>
    if p = "/music/a.mp3" then Except.ok { size := 100, mtime := 30 }
    else if p = "/music/rock/b.FLAC" then Except.ok { size := 200, mtime := 10 }
    else if p = "/music/rock/notes.txt" then Except.ok { size := 5, mtime := 11 }
    else if p = "/music/rock/live/c.ogg" then Except.ok { size := 300, mtime := 20 }
    else if p = "/music/locked/e.wav" then Except.ok { size := 400, mtime := 50 }
    else if p = "/music/jazz/d.m4a" then
      if statFails then Except.error (StatError.other "EACCES: permission denied")
      else Except.ok { size := 500, mtime := 40 }
    else if p = "/music/jazz/f.mp3" then Except.ok { size := 600, mtime := 60 }
    else Except.error StatError.ENOENT

/-! ## Notions used in the proofs -/

/-- The value of a list of decimal digits read from the left, starting from `acc`. -/
def digitsValue (ds : List Char) (acc : Nat) : Nat :=
  ds.foldl (fun a c => a * 10 + (digitValue c).getD 0) acc

/-- Every character is a decimal digit. -/
def AllDigits (ds : List Char) : Prop :=
  ∀ c ∈ ds, (digitValue c).isSome = true

/-- A character that stops `parseInt`: not a decimal digit. -/
def stopsNumber (rest : List Char) : Prop :=
  rest = [] ∨ ∃ c cs, rest = c :: cs ∧ digitValue c = none

/-- A path segment that `normalizeString` keeps as it is. -/
def ValidSeg (seg : List Char) : Prop :=
  seg ≠ [] ∧ '/' ∉ seg ∧ seg ≠ ['.'] ∧ seg ≠ ['.', '.']

/-- The loop state of `path.extname` after the characters `cs` of a name that starts at
index `k`, read from the last one back to the first. -/
def extStateAfter (k : Nat) (cs : List Char) : path.ExtState :=
  match cs with
  | [] => path.initialExtState
  | c :: _ =>
    match afterLastDot cs with
    | none =>
      { startDot := -1, startPart := 0, stop := (k + cs.length : Nat), matchedSlash := false,
        preDotState := 0, done := false }
    | some e =>
      { startDot := (k + cs.length - e.length - 1 : Nat), startPart := 0,
        stop := (k + cs.length : Nat), matchedSlash := false,
        preDotState := if e.length + 1 = cs.length then 0 else if c = '.' then 1 else -1,
        done := false }

/-! # Theorems -/

/-! ## Decimal numerals -/

theorem digitValue_digitChar (d : Nat) (h : d < 10) : digitValue (Nat.digitChar d) = some d := by
  interval_cases d <;> rfl

theorem toDigitsCore_spec (fuel : Nat) : ∀ (n : Nat) (ds : List Char), n < fuel →
    ∃ pre, Nat.toDigitsCore 10 fuel n ds = pre ++ ds ∧ pre ≠ [] ∧ AllDigits pre ∧
      digitsValue pre 0 = n := by
  induction fuel with
  | zero => intro n ds h; omega
  | succ fuel ih =>
    intro n ds h
    have hd : digitValue (Nat.digitChar (n % 10)) = some (n % 10) :=
      digitValue_digitChar _ (Nat.mod_lt _ (by decide))
    by_cases h0 : n / 10 = 0
    · refine ⟨[Nat.digitChar (n % 10)], ?_, by simp, ?_, ?_⟩
      · simp [Nat.toDigitsCore, h0]
      · intro c hc
        simp only [List.mem_singleton] at hc
        subst hc
        simp [hd]
      · simp only [digitsValue, List.foldl, hd, Option.getD]
        omega
    · obtain ⟨pre, hpre, hne, hall, hval⟩ :=
        ih (n / 10) (Nat.digitChar (n % 10) :: ds) (by omega)
      refine ⟨pre ++ [Nat.digitChar (n % 10)], ?_, by simp, ?_, ?_⟩
      · simp [Nat.toDigitsCore, h0, hpre]
      · intro c hc
        rcases List.mem_append.1 hc with hc | hc
        · exact hall c hc
        · simp only [List.mem_singleton] at hc
          subst hc
          simp [hd]
      · simp only [digitsValue, List.foldl_append, List.foldl, hd, Option.getD] at hval ⊢
        rw [hval]
        omega

theorem repr_spec (n : Nat) :
    (Nat.repr n).data ≠ [] ∧ AllDigits (Nat.repr n).data ∧ digitsValue (Nat.repr n).data 0 = n := by
  obtain ⟨pre, hpre, hne, hall, hval⟩ := toDigitsCore_spec (n + 1) n [] (Nat.lt_succ_self n)
  have : (Nat.repr n).data = pre := by
    simp [Nat.repr, Nat.toDigits, hpre, List.asString]
  rw [this]
  exact ⟨hne, hall, hval⟩

theorem parseDigits_digits (ds : List Char) (hall : AllDigits ds) :
    ∀ (rest : List Char) (acc : Option Nat), ds ≠ [] →
      parseDigits (ds ++ rest) acc = parseDigits rest (some (digitsValue ds (acc.getD 0))) := by
  induction ds with
  | nil => intro rest acc h; exact absurd rfl h
  | cons c cs ih =>
    intro rest acc _
    have hc : (digitValue c).isSome = true := hall c (List.mem_cons_self _ _)
    obtain ⟨d, hd⟩ := Option.isSome_iff_exists.1 hc
    have hall' : AllDigits cs := fun x hx => hall x (List.mem_cons_of_mem _ hx)
    by_cases hcs : cs = []
    · subst hcs
      simp [parseDigits, hd, digitsValue]
    · rw [List.cons_append, parseDigits]
      simp only [hd]
      rw [ih hall' rest _ hcs]
      simp [digitsValue, hd]

theorem parseDigits_stop (rest : List Char) (h : stopsNumber rest) (acc : Option Nat) :
    parseDigits rest acc = acc := by
  rcases h with h | ⟨c, cs, h, hc⟩
  · subst h; rfl
  · subst h; simp [parseDigits, hc]

theorem allDigits_head (ds : List Char) (hall : AllDigits ds) (hne : ds ≠ []) :
    ∃ c cs, ds = c :: cs ∧ (digitValue c).isSome = true := by
  cases ds with
  | nil => exact absurd rfl hne
  | cons c cs => exact ⟨c, cs, rfl, hall c (List.mem_cons_self _ _)⟩

theorem digit_not_space (c : Char) (h : (digitValue c).isSome = true) :
    isJSWhiteSpace c = false ∧ c ≠ '-' ∧ c ≠ '+' ∧ c ≠ '/' := by
  unfold digitValue at h
  split at h
  · rename_i hr
    have h1 : c.toNat ≠ 45 := by omega
    have h2 : c.toNat ≠ 43 := by omega
    have h3 : c.toNat ≠ 47 := by omega
    refine ⟨?_, ?_, ?_, ?_⟩
    · simp only [isJSWhiteSpace, Bool.or_eq_false_iff, Bool.and_eq_false_iff,
        decide_eq_false_iff_not, List.mem_cons, List.mem_singleton, not_or, List.not_mem_nil,
        or_false]
      omega
    · rintro rfl; exact h1 rfl
    · rintro rfl; exact h2 rfl
    · rintro rfl; exact h3 rfl
  · simp at h

theorem parseInt_repr (n : Nat) (rest : List Char) (h : stopsNumber rest) :
    parseInt (String.mk ((Nat.repr n).data ++ rest)) = JSNumber.int n := by
  obtain ⟨hne, hall, hval⟩ := repr_spec n
  obtain ⟨c, cs, hcs, hc⟩ := allDigits_head _ hall hne
  obtain ⟨hsp, hm, hp, _⟩ := digit_not_space c hc
  have hparse : parseDigits ((Nat.repr n).data ++ rest) none = some n := by
    rw [parseDigits_digits _ hall rest none hne, parseDigits_stop rest h]
    simp [hval]
  have hdrop : List.dropWhile isJSWhiteSpace ((Nat.repr n).data ++ rest) =
      (Nat.repr n).data ++ rest := by
    rw [hcs, List.cons_append, List.dropWhile_cons, hsp]
    simp
  unfold parseInt
  simp only [hdrop]
  have hsign : (match (Nat.repr n).data ++ rest with
      | '-' :: r => (true, r)
      | '+' :: r => (false, r)
      | _ => (false, (Nat.repr n).data ++ rest)) = (false, (Nat.repr n).data ++ rest) := by
    rw [hcs, List.cons_append]
    split
    · rename_i heq
      exact absurd (List.cons.inj heq).1 hm
    · rename_i heq
      exact absurd (List.cons.inj heq).1 hp
    · rfl
  rw [hsign]
  simp [hparse]

theorem repr_no_dash (n : Nat) : '-' ∉ (Nat.repr n).data := by
  intro h
  have := (repr_spec n).2.1 _ h
  simp [digitValue] at this

/-! ## The range branch -/

theorem removeFirst_bytes (xs : List Char) :
    removeFirst ['b', 'y', 't', 'e', 's', '='] (['b', 'y', 't', 'e', 's', '='] ++ xs) = xs := by
  simp [removeFirst, List.isPrefixOf]

theorem rangeParts_bytes (xs : List Char) :
    rangeParts (String.mk (['b', 'y', 't', 'e', 's', '='] ++ xs)) =
      (xs.splitOn '-').map String.mk := by
  show split '-' (String.mk (removeFirst ['b', 'y', 't', 'e', 's', '=']
    (['b', 'y', 't', 'e', 's', '='] ++ xs))) = _
  rw [removeFirst_bytes]
  rfl

theorem splitOn_two (sep : Char) (xs ys : List Char) (hx : sep ∉ xs) (hy : sep ∉ ys) :
    (xs ++ sep :: ys).splitOn sep = [xs, ys] := by
  have := List.splitOn_intercalate [xs, ys] sep
    (by intro l hl; simp at hl; rcases hl with rfl | rfl <;> assumption) (by simp)
  simpa [List.intercalate] using this

theorem toJSString_nat (n : Nat) : (JSNumber.int (n : Int)).toJSString = Nat.repr n := rfl

theorem accepts_of_le (a b : Nat) (hab : a ≤ b) (hb : b < 2 ^ 53) :
    createReadStreamAccepts (JSNumber.int a) (JSNumber.int b) = true := by
  simp only [createReadStreamAccepts, MAX_SAFE_INTEGER, decide_eq_true_eq]
  omega

theorem splitOn_head (sep : Char) (l : List Char) :
    ∃ tl, l.splitOn sep = l.takeWhile (fun c => c != sep) :: tl := by
  induction l with
  | nil => exact ⟨[], rfl⟩
  | cons c cs ih =>
    obtain ⟨tl, htl⟩ := ih
    by_cases hc : c = sep
    · subst hc
      exact ⟨cs.splitOn c, by simp [List.splitOn, List.takeWhile]⟩
    · refine ⟨tl, ?_⟩
      have h1 : (c == sep) = false := by simpa using hc
      have h2 : (c != sep) = true := by simpa using hc
      simp only [List.splitOn] at htl
      simp [List.splitOn, List.takeWhile, h1, h2, htl]

theorem splitOn_first (sep : Char) (xs ys : List Char) (hx : sep ∉ xs) :
    (xs ++ sep :: ys).splitOn sep = xs :: ys.splitOn sep := by
  simp only [List.splitOn]
  apply List.splitOnP_first
  · intro x hx' h
    rw [eq_of_beq h] at hx'
    exact hx hx'
  · simp

theorem stopsNumber_takeWhile (rest : List Char) (h : stopsNumber rest) :
    stopsNumber (rest.takeWhile (fun c => c != '-')) := by
  rcases h with h | ⟨c, cs, h, hc⟩
  · subst h; exact Or.inl rfl
  · subst h
    by_cases hd : c = '-'
    · subst hd; exact Or.inl (by simp [List.takeWhile])
    · have h2 : (c != '-') = true := by simpa using hd
      exact Or.inr ⟨c, cs.takeWhile (fun c => c != '-'), by simp [List.takeWhile, h2], hc⟩

theorem takeWhile_repr_append (b : Nat) (rest : List Char) :
    ((Nat.repr b).data ++ rest).takeWhile (fun c => c != '-') =
      (Nat.repr b).data ++ rest.takeWhile (fun c => c != '-') := by
  apply List.takeWhile_append_of_pos
  intro c hc
  have : c ≠ '-' := fun h => repr_no_dash b (h ▸ hc)
  simpa using this

/-- The range branch on `bytes=a-b<rest>` where `rest` does not go on with a digit: the first
range `a-b` is served. -/
theorem rangeBranch_pair (full : String) (S : Nat) (ct : String) (a b : Nat) (rest : List Char)
    (hab : a ≤ b) (hb : b < 2 ^ 53) (hrest : stopsNumber rest) :
    rangeBranch full (JSNumber.int S) ct
        (String.mk (['b', 'y', 't', 'e', 's', '='] ++
          ((Nat.repr a).data ++ '-' :: ((Nat.repr b).data ++ rest)))) =
      rangeResponse full ct S a b := by
  obtain ⟨tl, htl⟩ := splitOn_head '-' ((Nat.repr b).data ++ rest)
  have hsplit : ((Nat.repr a).data ++ '-' :: ((Nat.repr b).data ++ rest)).splitOn '-' =
      (Nat.repr a).data :: ((Nat.repr b).data ++ rest.takeWhile (fun c => c != '-')) :: tl := by
    rw [splitOn_first _ _ _ (repr_no_dash a), htl, takeWhile_repr_append]
  have hstart : parseInt (String.mk (Nat.repr a).data) = JSNumber.int a := by
    simpa using parseInt_repr a [] (Or.inl rfl)
  have hstop : parseInt (String.mk ((Nat.repr b).data ++ rest.takeWhile (fun c => c != '-'))) =
      JSNumber.int b :=
    parseInt_repr b _ (stopsNumber_takeWhile rest hrest)
  have hne : (Nat.repr b).data ++ rest.takeWhile (fun c => c != '-') ≠ [] := by
    intro h
    exact (repr_spec b).1 (List.append_eq_nil.1 h).1
  simp only [rangeBranch, rangeParts_bytes, hsplit, List.map, List.headD, List.get?,
    hstart, hstop, ne_eq, hne, not_false_eq_true, if_true, accepts_of_le a b hab hb,
    JSNumber.sub, JSNumber.add, toJSString_nat, rangeResponse]

/-- The range branch on `bytes=a-`: the end defaults to `fileSize - 1`. -/
theorem rangeBranch_open (full : String) (S : Nat) (ct : String) (a : Nat)
    (ha : a + 1 ≤ S) (hS : S ≤ 2 ^ 53) :
    rangeBranch full (JSNumber.int S) ct
        (String.mk (['b', 'y', 't', 'e', 's', '='] ++ ((Nat.repr a).data ++ '-' :: []))) =
      rangeResponse full ct S a (S - 1) := by
  have hsplit : ((Nat.repr a).data ++ '-' :: []).splitOn '-' = [(Nat.repr a).data, []] :=
    splitOn_two '-' _ _ (repr_no_dash a) (by simp)
  have hstart : parseInt (String.mk (Nat.repr a).data) = JSNumber.int a := by
    simpa using parseInt_repr a [] (Or.inl rfl)
  have hcast : ((S : Int) - 1) = ((S - 1 : Nat) : Int) := by omega
  simp only [rangeBranch, rangeParts_bytes, hsplit, List.map, List.headD, List.get?,
    hstart, ne_eq, not_true_eq_false, if_false, JSNumber.sub, JSNumber.add, hcast,
    accepts_of_le a (S - 1) (by omega) (by omega), if_true, toJSString_nat, rangeResponse]

theorem bytes_pair_eq (a b : Nat) (rest : String) :
    "bytes=" ++ Nat.repr a ++ "-" ++ Nat.repr b ++ rest =
      String.mk (['b', 'y', 't', 'e', 's', '='] ++
        ((Nat.repr a).data ++ '-' :: ((Nat.repr b).data ++ rest.data))) := by
  apply String.ext
  simp

theorem bytes_open_eq (a : Nat) :
    "bytes=" ++ Nat.repr a ++ "-" =
      String.mk (['b', 'y', 't', 'e', 's', '='] ++ ((Nat.repr a).data ++ '-' :: [])) := by
  apply String.ext
  simp

theorem bytes_pair_ne (a b : Nat) (rest : String) :
    ("bytes=" ++ Nat.repr a ++ "-" ++ Nat.repr b ++ rest).data ≠ [] := by
  rw [bytes_pair_eq]
  simp

/-- The handler past the containment check and a successful `stat`, with a non-empty `Range`
header: it is the range branch. -/
theorem playHandler_range (fs : FS) (MUSIC_DIR filePathParam : String) (stats : Stats)
    (range : String)
    (hin : startsWith (path.join [MUSIC_DIR, filePathParam]) MUSIC_DIR = true)
    (hstat : fs.stat (path.join [MUSIC_DIR, filePathParam]) = Except.ok stats)
    (hrange : range.data ≠ []) :
    playHandler fs MUSIC_DIR filePathParam (some range) =
      rangeBranch (path.join [MUSIC_DIR, filePathParam]) (JSNumber.int stats.size)
        (contentTypeOf (path.join [MUSIC_DIR, filePathParam])) range := by
  simp [playHandler, hin, hstat, Option.filter, hrange]

/-! ## `path.join` on clean paths -/

theorem pushSegment_valid (allow : Bool) (stack : List (List Char)) (seg : List Char)
    (h : ValidSeg seg) : path.pushSegment allow stack seg = seg :: stack := by
  obtain ⟨h1, _, h3, h4⟩ := h
  simp [path.pushSegment, h1, h3, h4]

theorem pushSegment_nil (allow : Bool) (stack : List (List Char)) :
    path.pushSegment allow stack [] = stack := by
  simp [path.pushSegment]

theorem foldl_pushSegment (allow : Bool) (segs : List (List Char))
    (h : ∀ s ∈ segs, s = [] ∨ ValidSeg s) :
    ∀ stack, segs.foldl (path.pushSegment allow) stack =
      (segs.filter (fun s => decide (s ≠ []))).reverse ++ stack := by
  induction segs with
  | nil => intro stack; rfl
  | cons s rest ih =>
    intro stack
    have hrest : ∀ s ∈ rest, s = [] ∨ ValidSeg s := fun x hx => h x (List.mem_cons_of_mem _ hx)
    rcases h s (List.mem_cons_self _ _) with hs | hs
    · subst hs
      simp [pushSegment_nil, ih hrest]
    · have hne : s ≠ [] := hs.1
      simp [pushSegment_valid allow stack s hs, ih hrest, hne]

theorem intercalate_cons_cons (x y : List Char) (l : List (List Char)) :
    ['/'].intercalate (x :: y :: l) = x ++ '/' :: ['/'].intercalate (y :: l) := by
  simp [List.intercalate]

theorem intercalate_nil : ['/'].intercalate ([] : List (List Char)) = [] := rfl

theorem intercalate_single (x : List Char) : ['/'].intercalate [x] = x := by
  simp [List.intercalate]

theorem intercalate_snoc (l : List (List Char)) (hl : l ≠ []) (x : List Char) :
    ['/'].intercalate (l ++ [x]) = ['/'].intercalate l ++ '/' :: x := by
  induction l with
  | nil => exact absurd rfl hl
  | cons a rest ih =>
    cases rest with
    | nil => simp [List.intercalate]
    | cons b rest' =>
      have := ih (by simp)
      rw [List.cons_append, List.cons_append, intercalate_cons_cons, ← List.cons_append, this,
        intercalate_cons_cons]
      simp

theorem intercalate_append (l r : List (List Char)) (hl : l ≠ []) (hr : r ≠ []) :
    ['/'].intercalate (l ++ r) = ['/'].intercalate l ++ '/' :: ['/'].intercalate r := by
  induction l with
  | nil => exact absurd rfl hl
  | cons a rest ih =>
    cases rest with
    | nil =>
      cases r with
      | nil => exact absurd rfl hr
      | cons b r' => simp [intercalate_cons_cons, intercalate_single]
    | cons b rest' =>
      have := ih (by simp)
      rw [List.cons_append, List.cons_append, intercalate_cons_cons, ← List.cons_append, this,
        intercalate_cons_cons]
      simp

theorem normalizeString_segments (allow : Bool) (segs : List (List Char)) (hne : segs ≠ [])
    (h : ∀ s ∈ segs, s = [] ∨ ValidSeg s) :
    path.normalizeString (['/'].intercalate segs) allow =
      ['/'].intercalate (segs.filter (fun s => decide (s ≠ []))) := by
  have hsplit : (['/'].intercalate segs).splitOn '/' = segs := by
    refine List.splitOn_intercalate segs '/' ?_ hne
    intro l hl
    rcases h l hl with rfl | hv
    · simp
    · exact hv.2.1
  simp [path.normalizeString, hsplit, foldl_pushSegment allow segs h]

theorem filter_valid (segs : List (List Char)) (h : ∀ s ∈ segs, ValidSeg s) :
    segs.filter (fun s => decide (s ≠ [])) = segs := by
  apply List.filter_eq_self.2
  intro s hs
  simpa using (h s hs).1

theorem intercalate_ne_nil (segs : List (List Char)) (hne : segs ≠ [])
    (h : ∀ s ∈ segs, ValidSeg s) : ['/'].intercalate segs ≠ [] := by
  cases segs with
  | nil => exact absurd rfl hne
  | cons a rest =>
    have ha : a ≠ [] := (h a (List.mem_cons_self _ _)).1
    cases rest with
    | nil => simpa [intercalate_single] using ha
    | cons b r => simp [intercalate_cons_cons, ha]

theorem intercalate_head (segs : List (List Char)) (hne : segs ≠ [])
    (h : ∀ s ∈ segs, ValidSeg s) : (['/'].intercalate segs).head? ≠ some '/' := by
  cases segs with
  | nil => exact absurd rfl hne
  | cons a rest =>
    obtain ⟨ha, hs, _, _⟩ := h a (List.mem_cons_self _ _)
    cases a with
    | nil => exact absurd rfl ha
    | cons c cs =>
      have hc : c ≠ '/' := fun e => hs (e ▸ List.mem_cons_self _ _)
      cases rest with
      | nil => simpa [intercalate_single] using hc
      | cons b r => simpa [intercalate_cons_cons] using hc

theorem getLast_valid (pre seg : List Char) (h : ValidSeg seg) :
    (pre ++ seg).getLast? ≠ some '/' := by
  obtain ⟨hne, hs, _, _⟩ := h
  rw [List.getLast?_append_of_ne_nil _ hne]
  intro e
  exact hs (List.mem_of_getLast?_eq_some e)

theorem intercalate_last (segs : List (List Char)) (pre : List Char) (hne : segs ≠ [])
    (h : ∀ s ∈ segs, ValidSeg s) : (pre ++ ['/'].intercalate segs).getLast? ≠ some '/' := by
  obtain ⟨front, last, rfl⟩ : ∃ front last, segs = front ++ [last] :=
    ⟨segs.dropLast, segs.getLast hne, (List.dropLast_append_getLast hne).symm⟩
  have hl : ValidSeg last := h last (by simp)
  by_cases hf : front = []
  · subst hf
    simpa [intercalate_single] using getLast_valid pre last hl
  · rw [intercalate_snoc front hf last]
    have := getLast_valid (pre ++ ['/'].intercalate front ++ ['/']) last hl
    simpa using this

/-- Normalising leaves a relative path of valid segments as it is. -/
theorem normalize_relative (segs : List (List Char)) (hne : segs ≠ [])
    (h : ∀ s ∈ segs, ValidSeg s) :
    path.normalize (String.mk (['/'].intercalate segs)) = String.mk (['/'].intercalate segs) := by
  have h0 := intercalate_ne_nil segs hne h
  have h1 := intercalate_head segs hne h
  have h2 : (['/'].intercalate segs).getLast? ≠ some '/' := by
    simpa using intercalate_last segs [] hne h
  have h3 := normalizeString_segments true segs hne (fun s hs => Or.inr (h s hs))
  rw [filter_valid segs h] at h3
  simp [path.normalize, h0, h1, h2, h3]

/-- Normalising `/seg/…/seg`, also with the leading slash doubled: one leading slash
and the segments. -/
theorem normalize_absolute (segs : List (List Char)) (h : ∀ s ∈ segs, ValidSeg s) :
    path.normalize (String.mk ('/' :: ['/'].intercalate segs)) =
      String.mk ('/' :: ['/'].intercalate segs) ∧
    (segs ≠ [] → path.normalize (String.mk ('/' :: '/' :: ['/'].intercalate segs)) =
      String.mk ('/' :: ['/'].intercalate segs)) := by
  by_cases hne : segs = []
  · subst hne
    refine ⟨by decide, fun h => absurd rfl h⟩
  · have h0 := intercalate_ne_nil segs hne h
    have hl1 : ('/' :: ['/'].intercalate segs).getLast? ≠ some '/' := by
      simpa using intercalate_last segs ['/'] hne h
    have hl2 : ('/' :: '/' :: ['/'].intercalate segs).getLast? ≠ some '/' := by
      simpa using intercalate_last segs ['/', '/'] hne h
    obtain ⟨a, rest, rfl⟩ : ∃ a rest, segs = a :: rest := by
      cases segs with
      | nil => exact absurd rfl hne
      | cons a rest => exact ⟨a, rest, rfl⟩
    have e1 : '/' :: ['/'].intercalate (a :: rest) = ['/'].intercalate ([] :: a :: rest) := by
      simp [intercalate_cons_cons]
    have e2 : '/' :: '/' :: ['/'].intercalate (a :: rest) =
        ['/'].intercalate ([] :: [] :: a :: rest) := by
      simp [intercalate_cons_cons]
    have hv : ∀ s ∈ ([] : List Char) :: a :: rest, s = [] ∨ ValidSeg s := by
      intro s hs
      rcases List.mem_cons.1 hs with rfl | hs
      · exact Or.inl rfl
      · exact Or.inr (h s hs)
    have hv2 : ∀ s ∈ ([] : List Char) :: [] :: a :: rest, s = [] ∨ ValidSeg s := by
      intro s hs
      rcases List.mem_cons.1 hs with rfl | hs
      · exact Or.inl rfl
      · exact hv s hs
    have n1 := normalizeString_segments false _ (by simp) hv
    have n2 := normalizeString_segments false _ (by simp) hv2
    have f1 : (([] : List Char) :: a :: rest).filter (fun s => decide (s ≠ [])) = a :: rest := by
      rw [List.filter_cons_of_neg (by simp)]
      exact filter_valid _ h
    have f2 : (([] : List Char) :: [] :: a :: rest).filter (fun s => decide (s ≠ [])) =
        a :: rest := by
      rw [List.filter_cons_of_neg (by simp)]
      exact f1
    rw [f1, ← e1] at n1
    rw [f2, ← e2] at n2
    constructor
    · simp [path.normalize, hl1, n1, h0]
    · intro _
      simp [path.normalize, hl1, hl2, n2, h0]

theorem validSegs_of_names (names : List String) (h : ∀ n ∈ names, validName n) :
    ∀ s ∈ names.map String.data, ValidSeg s := by
  intro s hs
  obtain ⟨n, hn, rfl⟩ := List.mem_map.1 hs
  exact h n hn

theorem join_filter_two (a b : String) (ha : a.data ≠ []) (hb : b.data ≠ []) :
    path.join [a, b] = path.normalize (String.mk (a.data ++ '/' :: b.data)) := by
  simp [path.join, List.filter, ha, hb, List.intercalate]

theorem join_filter_left (a b : String) (ha : a.data ≠ []) (hb : b.data = []) :
    path.join [a, b] = path.normalize (String.mk a.data) := by
  simp [path.join, List.filter, ha, hb, List.intercalate]

theorem join_filter_right (a b : String) (ha : a.data = []) (hb : b.data ≠ []) :
    path.join [a, b] = path.normalize (String.mk b.data) := by
  simp [path.join, List.filter, ha, hb, List.intercalate]

/-- Joining `path.join(currentDir, entry.name)` appends the name to the relative path. -/
theorem join_relative (dir : List String) (name : String) (hdir : ∀ n ∈ dir, validName n)
    (hname : validName name) :
    path.join [relativePath dir, name] = relativePath (dir ++ [name]) := by
  have hn : name.data ≠ [] := hname.1
  have hall : ∀ s ∈ (dir ++ [name]).map String.data, ValidSeg s := by
    apply validSegs_of_names
    intro n hn'
    rcases List.mem_append.1 hn' with h | h
    · exact hdir n h
    · simp only [List.mem_singleton] at h
      exact h ▸ hname
  have hnorm := normalize_relative ((dir ++ [name]).map String.data) (by simp) hall
  by_cases hd : dir = []
  · subst hd
    rw [join_filter_right _ _ (by simp [relativePath, intercalate_nil]) hn]
    simpa [relativePath, intercalate_single] using hnorm
  · have hdne : (relativePath dir).data ≠ [] := by
      simpa [relativePath] using
        intercalate_ne_nil (dir.map String.data) (by simpa using hd) (validSegs_of_names dir hdir)
    rw [join_filter_two _ _ hdne hn]
    have e : (relativePath dir).data ++ '/' :: name.data =
        ['/'].intercalate ((dir ++ [name]).map String.data) := by
      rw [List.map_append, List.map_singleton,
        intercalate_snoc (dir.map String.data) (by simpa using hd)]
      rfl
    rw [e, hnorm]
    rfl

/-- Joining `path.join(baseDir, relative)` gives the absolute path of the entry. -/
theorem join_absolute (root dir : List String) (hroot : ∀ n ∈ root, validName n)
    (hdir : ∀ n ∈ dir, validName n) :
    path.join [absolutePath root, relativePath dir] = absolutePath (root ++ dir) := by
  have habs : (absolutePath root).data ≠ [] := by simp [absolutePath]
  have hall : ∀ s ∈ (root ++ dir).map String.data, ValidSeg s := by
    apply validSegs_of_names
    intro n hn'
    rcases List.mem_append.1 hn' with h | h
    · exact hroot n h
    · exact hdir n h
  by_cases hd : dir = []
  · subst hd
    rw [join_filter_left _ _ habs (by simp [relativePath, intercalate_nil])]
    simpa [absolutePath] using
      (normalize_absolute (root.map String.data) (validSegs_of_names root hroot)).1
  · have hdne : (relativePath dir).data ≠ [] := by
      simpa [relativePath] using
        intercalate_ne_nil (dir.map String.data) (by simpa using hd) (validSegs_of_names dir hdir)
    rw [join_filter_two _ _ habs hdne]
    by_cases hr : root = []
    · subst hr
      have := (normalize_absolute (dir.map String.data) (validSegs_of_names dir hdir)).2
        (by simpa using hd)
      simpa [absolutePath, relativePath] using this
    · have e : (absolutePath root).data ++ '/' :: (relativePath dir).data =
          '/' :: ['/'].intercalate ((root ++ dir).map String.data) := by
        rw [List.map_append, intercalate_append (root.map String.data) (dir.map String.data)
          (by simpa using hr) (by simpa using hd)]
        rfl
      rw [e]
      exact (normalize_absolute _ hall).1

/-! ## The scan follows the tree -/

theorem isMusicFile_file (name : String) :
    isMusicFile { name := name, isDirectory := false, isFile := true } =
      hasMusicExtension name := by
  simp [isMusicFile, hasMusicExtension]

theorem statSync_join (root dir : List String) (name : String)
    (hroot : ∀ n ∈ root, validName n) (hdir : ∀ n ∈ dir, validName n) (hname : validName name) :
    path.join [absolutePath root, path.join [relativePath dir, name]] =
      absolutePath (root ++ (dir ++ [name])) := by
  rw [join_relative dir name hdir hname]
  apply join_absolute root (dir ++ [name]) hroot
  intro n hn
  rcases List.mem_append.1 hn with h | h
  · exact hdir n h
  · simp only [List.mem_singleton] at h
    exact h ▸ hname

/-- The loop of `findMusicFiles` over the entries of a directory that is on disk gathers
`Node.scanAll`, provided the fuel covers the depth of the tree. -/
theorem forLoop_scanAll (fs : FS) (root : List String) (hroot : ∀ n ∈ root, validName n) :
    ∀ (nodes : List Node) (dir : List String) (fuel : Nat) (files : List TrackEntry),
      (∀ n ∈ dir, validName n) → Node.allWellNamed nodes → Node.allOnDisk fs root dir nodes →
      Node.depthAll nodes ≤ fuel →
      forLoop (findMusicFiles fs (absolutePath root) fuel) fs (absolutePath root)
          (relativePath dir) (nodes.map Node.dirent) files =
        some (files ++ Node.scanAll dir nodes)
  | [], dir, fuel, files, _, _, _, _ => by
    simp [forLoop, Node.scanAll]
  | Node.other name :: rest, dir, fuel, files, hdir, hwn, hod, hdepth => by
    have ih := forLoop_scanAll fs root hroot rest dir fuel files hdir hwn.2 hod.2
      (le_trans (le_max_right _ _) hdepth)
    simpa [forLoop, Node.dirent, isMusicFile, Node.scanAll, Node.scan] using ih
  | Node.file name stats statFails :: rest, dir, fuel, files, hdir, hwn, hod, hdepth => by
    have hname : validName name := hwn.1
    have hstat : fs.statSync (absolutePath (root ++ (dir ++ [name]))) =
        if statFails then none else some stats := hod.1
    have hpath := statSync_join root dir name hroot hdir hname
    have hrel := join_relative dir name hdir hname
    have hpath2 := hpath
    rw [hrel] at hpath2
    by_cases hext : hasMusicExtension name = true
    · cases statFails with
      | true =>
        simp only [if_true] at hstat
        simp [forLoop, Node.dirent, isMusicFile_file, hext, hpath, hstat, Node.scanAll, Node.scan]
      | false =>
        simp only [Bool.false_eq_true, if_false] at hstat
        have ih := forLoop_scanAll fs root hroot rest dir fuel
          (files ++ [DiskFile.entry { dir := dir, name := name, stats := stats }]) hdir hwn.2 hod.2
          (le_trans (le_max_right _ _) hdepth)
        simp only [List.map, forLoop, Node.dirent, Bool.false_eq_true, if_false,
          isMusicFile_file, hext, if_true, hpath, hpath2, hstat, hrel, Node.scanAll, Node.scan]
        simpa [DiskFile.entry] using ih
    · have ih := forLoop_scanAll fs root hroot rest dir fuel files hdir hwn.2 hod.2
        (le_trans (le_max_right _ _) hdepth)
      simpa [forLoop, Node.dirent, isMusicFile_file, hext, Node.scanAll, Node.scan] using ih
  | Node.dir name children readdirFails :: rest, dir, fuel, files, hdir, hwn, hod, hdepth => by
    have hname : validName name := hwn.1.1
    have hdir' : ∀ n ∈ dir ++ [name], validName n := by
      intro n hn
      rcases List.mem_append.1 hn with h | h
      · exact hdir n h
      · simp only [List.mem_singleton] at h
        exact h ▸ hname
    have hrel := join_relative dir name hdir hname
    have habs := join_absolute root (dir ++ [name]) hroot hdir'
    have hd : Node.depthAll children + 1 ≤ fuel := le_trans (le_max_left _ _) hdepth
    obtain ⟨f, rfl⟩ : ∃ f, fuel = f + 1 := ⟨fuel - 1, by omega⟩
    have hsub : findMusicFiles fs (absolutePath root) (f + 1) (relativePath (dir ++ [name])) =
        some (if readdirFails then [] else Node.scanAll (dir ++ [name]) children) := by
      have hod1 := hod.1
      cases readdirFails with
      | true =>
        simp only [Node.onDisk, if_true] at hod1
        simp [findMusicFiles, habs, hod1]
      | false =>
        simp only [Node.onDisk, Bool.false_eq_true, if_false] at hod1
        have ih := forLoop_scanAll fs root hroot children (dir ++ [name]) f [] hdir' hwn.1.2
          hod1.2 (by omega)
        simpa [findMusicFiles, habs, hod1.1] using ih
    have ih := forLoop_scanAll fs root hroot rest dir (f + 1)
      (files ++ (if readdirFails then [] else Node.scanAll (dir ++ [name]) children)) hdir hwn.2
      hod.2 (le_trans (le_max_right _ _) hdepth)
    simp only [List.map, forLoop, Node.dirent, if_true, hrel, hsub, Node.scanAll, Node.scan]
    simpa using ih

/-- Scanning with `findMusicFiles` a music directory that is on disk returns `Node.scanAll` of
its entries, or nothing when reading the music directory itself fails. -/
theorem findMusicFiles_scanAll (fs : FS) (root : List String) (children : List Node)
    (readdirFails : Bool) (fuel : Nat) (hroot : ∀ n ∈ root, validName n)
    (hwn : Node.allWellNamed children) (hod : Library.onDisk fs root children readdirFails)
    (hfuel : Node.depthAll children < fuel) :
    findMusicFiles fs (absolutePath root) fuel "" =
      some (if readdirFails then [] else Node.scanAll [] children) := by
  obtain ⟨f, rfl⟩ : ∃ f, fuel = f + 1 := ⟨fuel - 1, by omega⟩
  have habs : path.join [absolutePath root, ""] = absolutePath root := by
    simpa [relativePath, intercalate_nil] using join_absolute root [] hroot (by simp)
  cases readdirFails with
  | true =>
    simp only [Library.onDisk, if_true] at hod
    simp [findMusicFiles, habs, hod]
  | false =>
    simp only [Library.onDisk, Bool.false_eq_true, if_false] at hod
    have ih := forLoop_scanAll fs root hroot children [] f [] (by simp) hwn hod.2 (by omega)
    have hrel : relativePath [] = "" := rfl
    rw [hrel] at ih
    simpa [findMusicFiles, habs, hod.1] using ih

/-! ## Properties of the scan of a tree -/

mutual
theorem scan_noFailure (dir : List String) : ∀ (n : Node), Node.noFailure n = true →
    Node.scan dir n =
      some (((Node.files dir n).filter (fun f => hasMusicExtension f.name)).map DiskFile.entry)
  | Node.file name stats statFails, h => by
    simp only [Node.noFailure, Bool.not_eq_true'] at h
    subst h
    by_cases hext : hasMusicExtension name = true
    · simp [Node.scan, Node.files, hext]
    · simp [Node.scan, Node.files, hext]
  | Node.dir name children readdirFails, h => by
    simp only [Node.noFailure, Bool.and_eq_true, Bool.not_eq_true'] at h
    obtain ⟨h1, h2⟩ := h
    subst h1
    simp [Node.scan, Node.files, scanAll_noFailure (dir ++ [name]) children h2]
  | Node.other name, _ => by
    simp [Node.scan, Node.files]
theorem scanAll_noFailure (dir : List String) : ∀ (ns : List Node), Node.allNoFailure ns = true →
    Node.scanAll dir ns =
      ((Node.allFiles dir ns).filter (fun f => hasMusicExtension f.name)).map DiskFile.entry
  | [], _ => by simp [Node.scanAll, Node.allFiles]
  | n :: ns, h => by
    simp only [Node.allNoFailure, Bool.and_eq_true] at h
    simp [Node.scanAll, Node.allFiles, scan_noFailure dir n h.1, scanAll_noFailure dir ns h.2]
end

mutual
theorem scan_emptied (dir : List String) : ∀ (n : Node), Node.statsSucceed n = true →
    Node.scan dir (Node.emptied n) = Node.scan dir n
  | Node.file name stats statFails, _ => by simp [Node.emptied]
  | Node.dir name children readdirFails, h => by
    simp only [Node.statsSucceed] at h
    cases readdirFails with
    | true => simp [Node.emptied, Node.scan, Node.scanAll]
    | false => simp [Node.emptied, Node.scan, scanAll_emptied (dir ++ [name]) children h]
  | Node.other name, _ => by simp [Node.emptied]
theorem scanAll_emptied (dir : List String) : ∀ (ns : List Node),
    Node.allStatsSucceed ns = true → Node.scanAll dir (Node.allEmptied ns) = Node.scanAll dir ns
  | [], _ => by simp [Node.allEmptied]
  | n :: ns, h => by
    simp only [Node.allStatsSucceed, Bool.and_eq_true] at h
    simp [Node.allEmptied, Node.scanAll, scan_emptied dir n h.1, scanAll_emptied dir ns h.2]
end

mutual
theorem emptied_noFailure : ∀ (n : Node), Node.statsSucceed n = true →
    Node.noFailure (Node.emptied n) = true
  | Node.file name stats statFails, h => by
    simpa [Node.emptied, Node.noFailure, Node.statsSucceed] using h
  | Node.dir name children readdirFails, h => by
    simp only [Node.statsSucceed] at h
    cases readdirFails with
    | true => simp [Node.emptied, Node.noFailure, Node.allNoFailure]
    | false => simp [Node.emptied, Node.noFailure, allEmptied_noFailure children h]
  | Node.other name, _ => by simp [Node.emptied, Node.noFailure]
theorem allEmptied_noFailure : ∀ (ns : List Node), Node.allStatsSucceed ns = true →
    Node.allNoFailure (Node.allEmptied ns) = true
  | [], _ => by simp [Node.allEmptied, Node.allNoFailure]
  | n :: ns, h => by
    simp only [Node.allStatsSucceed, Bool.and_eq_true] at h
    simp [Node.allEmptied, Node.allNoFailure, emptied_noFailure n h.1,
      allEmptied_noFailure ns h.2]
end

mutual
theorem emptied_wellNamed : ∀ (n : Node), Node.wellNamed n → Node.wellNamed (Node.emptied n)
  | Node.file name stats statFails, h => by simpa [Node.emptied] using h
  | Node.dir name children readdirFails, h => by
    cases readdirFails with
    | true => exact ⟨h.1, trivial⟩
    | false => exact ⟨h.1, allEmptied_wellNamed children h.2⟩
  | Node.other name, h => by simpa [Node.emptied] using h
theorem allEmptied_wellNamed : ∀ (ns : List Node), Node.allWellNamed ns →
    Node.allWellNamed (Node.allEmptied ns)
  | [], _ => trivial
  | n :: ns, h => ⟨emptied_wellNamed n h.1, allEmptied_wellNamed ns h.2⟩
end

mutual
theorem emptied_depth : ∀ (n : Node), Node.depth (Node.emptied n) ≤ Node.depth n
  | Node.file name stats statFails => by simp [Node.emptied]
  | Node.dir name children readdirFails => by
    cases readdirFails with
    | true => simp [Node.emptied, Node.depth, Node.depthAll]
    | false => simpa [Node.emptied, Node.depth] using allEmptied_depth children
  | Node.other name => by simp [Node.emptied]
theorem allEmptied_depth : ∀ (ns : List Node),
    Node.depthAll (Node.allEmptied ns) ≤ Node.depthAll ns
  | [] => by simp [Node.allEmptied]
  | n :: ns => by
    simp only [Node.allEmptied, Node.depthAll]
    exact max_le_max (emptied_depth n) (allEmptied_depth ns)
end

mutual
theorem healed_wellNamed : ∀ (n : Node), Node.wellNamed n → Node.wellNamed (Node.healed n)
  | Node.file name stats statFails, h => by simpa [Node.healed, Node.wellNamed] using h
  | Node.dir name children readdirFails, h => ⟨h.1, allHealed_wellNamed children h.2⟩
  | Node.other name, h => by simpa [Node.healed] using h
theorem allHealed_wellNamed : ∀ (ns : List Node), Node.allWellNamed ns →
    Node.allWellNamed (Node.allHealed ns)
  | [], _ => trivial
  | n :: ns, h => ⟨healed_wellNamed n h.1, allHealed_wellNamed ns h.2⟩
end

mutual
theorem healed_depth : ∀ (n : Node), Node.depth (Node.healed n) = Node.depth n
  | Node.file name stats statFails => by simp [Node.healed, Node.depth]
  | Node.dir name children readdirFails => by
    simp [Node.healed, Node.depth, allHealed_depth children]
  | Node.other name => by simp [Node.healed]
theorem allHealed_depth : ∀ (ns : List Node),
    Node.depthAll (Node.allHealed ns) = Node.depthAll ns
  | [] => by simp [Node.allHealed]
  | n :: ns => by
    simp [Node.allHealed, Node.depthAll, healed_depth n, allHealed_depth ns]
end

mutual
/-- With failures an entry gives a sublist of what it gives without, and when its `statSync`
throws nothing at all. -/
theorem scan_healed (dir : List String) : ∀ (n : Node),
    ∃ complete, Node.scan dir (Node.healed n) = some complete ∧
      ∀ found, Node.scan dir n = some found → found.Sublist complete
  | Node.file name stats statFails => by
    by_cases hext : hasMusicExtension name = true
    · refine ⟨[DiskFile.entry { dir := dir, name := name, stats := stats }], ?_, ?_⟩
      · simp [Node.healed, Node.scan, hext]
      · intro found hf
        cases statFails with
        | true => simp [Node.scan, hext] at hf
        | false =>
          simp only [Node.scan, hext, if_true, Bool.false_eq_true, if_false,
            Option.some.injEq] at hf
          rw [← hf]
    · refine ⟨[], ?_, ?_⟩
      · simp [Node.healed, Node.scan, hext]
      · intro found hf
        simp only [Node.scan, hext, Bool.false_eq_true, if_false, Option.some.injEq] at hf
        rw [← hf]
  | Node.dir name children readdirFails => by
    refine ⟨Node.scanAll (dir ++ [name]) (Node.allHealed children), ?_, ?_⟩
    · simp [Node.healed, Node.scan]
    · intro found hf
      simp only [Node.scan, Option.some.injEq] at hf
      rw [← hf]
      cases readdirFails with
      | true => simp
      | false => simpa using scanAll_healed (dir ++ [name]) children
  | Node.other name => ⟨[], by simp [Node.healed, Node.scan], by
      intro found hf
      simp only [Node.scan, Option.some.injEq] at hf
      rw [← hf]⟩
theorem scanAll_healed (dir : List String) : ∀ (ns : List Node),
    (Node.scanAll dir ns).Sublist (Node.scanAll dir (Node.allHealed ns))
  | [] => by simp [Node.allHealed, Node.scanAll]
  | n :: ns => by
    obtain ⟨complete, hc, hsub⟩ := scan_healed dir n
    have ih := scanAll_healed dir ns
    simp only [Node.allHealed, Node.scanAll, hc]
    cases hn : Node.scan dir n with
    | none => simp
    | some found => exact List.Sublist.append (hsub found hn) ih
end

theorem replaceBackslashes_id (s : String) (h : '\\' ∉ s.data) : replaceBackslashes s = s := by
  unfold replaceBackslashes
  apply String.ext
  simp only
  conv_rhs => rw [← List.map_id s.data]
  apply List.map_congr_left
  intro c hc
  have : c ≠ '\\' := fun e => h (e ▸ hc)
  simp [this]

theorem intercalate_not_mem (segs : List (List Char)) (h : ∀ s ∈ segs, '\\' ∉ s) :
    '\\' ∉ ['/'].intercalate segs := by
  induction segs with
  | nil => simp [intercalate_nil]
  | cons a rest ih =>
    have ha := h a (List.mem_cons_self _ _)
    have hr := ih (fun s hs => h s (List.mem_cons_of_mem _ hs))
    cases rest with
    | nil => simpa [intercalate_single] using ha
    | cons b r =>
      rw [intercalate_cons_cons]
      intro hm
      rcases List.mem_append.1 hm with h1 | h1
      · exact ha h1
      · rcases List.mem_cons.1 h1 with h2 | h2
        · exact absurd h2 (by decide)
        · exact hr h2

/-- A stat failure on a music file ends the loop: what comes after it is never looked at. -/
theorem forLoop_abort (recurse : String → Option (List TrackEntry)) (fs : FS)
    (baseDir currentDir : String) (entry : Dirent) (later : List Dirent)
    (hdir : entry.isDirectory = false) (hmusic : isMusicFile entry = true)
    (hstat : fs.statSync (path.join [baseDir, path.join [currentDir, entry.name]]) = none) :
    ∀ (earlier : List Dirent) (files : List TrackEntry),
      forLoop recurse fs baseDir currentDir (earlier ++ entry :: later) files =
        forLoop recurse fs baseDir currentDir earlier files := by
  intro earlier
  induction earlier with
  | nil =>
    intro files
    simp [forLoop, hdir, hmusic, hstat]
  | cons e rest ih =>
    intro files
    simp only [List.cons_append, forLoop]
    split
    · split
      · rfl
      · exact ih _
    · split
      · split
        · rfl
        · exact ih _
      · exact ih _

/-! ## `path.extname` on the last segment -/

theorem afterLastDot_length : ∀ (cs e : List Char), afterLastDot cs = some e →
    e.length + 1 ≤ cs.length
  | [], e, h => by simp [afterLastDot] at h
  | c :: cs, e, h => by
    unfold afterLastDot at h
    cases hcs : afterLastDot cs with
    | some e' =>
      rw [hcs] at h
      simp only [Option.some.injEq] at h
      subst h
      have := afterLastDot_length cs e' hcs
      simp only [List.length_cons]
      omega
    | none =>
      rw [hcs] at h
      simp only at h
      split at h
      · simp only [Option.some.injEq] at h
        subst h
        simp
      · simp at h

theorem afterLastDot_split : ∀ (cs e : List Char), afterLastDot cs = some e →
    ∃ front, cs = front ++ '.' :: e
  | [], e, h => by simp [afterLastDot] at h
  | c :: cs, e, h => by
    unfold afterLastDot at h
    cases hcs : afterLastDot cs with
    | some e' =>
      rw [hcs] at h
      simp only [Option.some.injEq] at h
      subst h
      obtain ⟨front, hf⟩ := afterLastDot_split cs e' hcs
      exact ⟨c :: front, by rw [hf]; rfl⟩
    | none =>
      rw [hcs] at h
      simp only at h
      split at h
      · rename_i hc
        simp only [Option.some.injEq] at h
        subst h
        exact ⟨[], by rw [hc]; rfl⟩
      · simp at h

theorem extStateAfter_none (k : Nat) (c : Char) (cs : List Char)
    (h : afterLastDot (c :: cs) = none) :
    extStateAfter k (c :: cs) =
      { startDot := -1, startPart := 0, stop := (k + (cs.length + 1) : Nat),
        matchedSlash := false, preDotState := 0, done := false } := by
  simp only [extStateAfter, h, List.length_cons]

theorem extStateAfter_some (k : Nat) (c : Char) (cs e : List Char)
    (h : afterLastDot (c :: cs) = some e) :
    extStateAfter k (c :: cs) =
      { startDot := (k + (cs.length + 1) - e.length - 1 : Nat), startPart := 0,
        stop := (k + (cs.length + 1) : Nat), matchedSlash := false,
        preDotState := if e.length + 1 = cs.length + 1 then 0 else if c = '.' then 1 else -1,
        done := false } := by
  simp only [extStateAfter, h, List.length_cons]

theorem afterLastDot_cons_some (c : Char) (cs e : List Char) (h : afterLastDot cs = some e) :
    afterLastDot (c :: cs) = some e := by
  simp only [afterLastDot, h]

theorem afterLastDot_cons_none (c : Char) (cs : List Char) (h : afterLastDot cs = none) :
    afterLastDot (c :: cs) = if c = '.' then some cs else none := by
  simp only [afterLastDot, h]

theorem extStep_first (i : Nat) (c : Char) (hc : c ≠ '/') :
    path.extStep path.initialExtState (i, c) =
      { startDot := (if c = '.' then (i : Int) else -1), startPart := 0, stop := (i : Int) + 1,
        matchedSlash := false, preDotState := 0, done := false } := by
  by_cases hd : c = '.'
  · subst hd
    simp [path.extStep, path.initialExtState]
  · simp [path.extStep, path.initialExtState, hc, hd]

theorem extStep_char (sd sp n p : Int) (i : Nat) (c : Char) (hc : c ≠ '/') (hn : n ≠ -1) :
    path.extStep
        { startDot := sd, startPart := sp, stop := n, matchedSlash := false,
          preDotState := p, done := false } (i, c) =
      { startDot := (if c = '.' ∧ sd = -1 then (i : Int) else sd), startPart := sp,
        stop := n, matchedSlash := false,
        preDotState := (if sd = -1 then p else if c = '.' then 1 else -1), done := false } := by
  by_cases hd : c = '.'
  · subst hd
    by_cases hs : sd = -1
    · simp [path.extStep, hn, hs]
    · by_cases hp : p = 1
      · simp [path.extStep, hn, hs, hp]
      · simp [path.extStep, hn, hs, hp]
  · by_cases hs : sd = -1
    · simp [path.extStep, hn, hs, hc, hd]
    · simp [path.extStep, hn, hs, hc, hd]

theorem extState_name (cs : List Char) (hs : '/' ∉ cs) : ∀ k : Nat,
    (List.enumFrom k cs).foldr (fun ic st => path.extStep st ic) path.initialExtState =
      extStateAfter k cs := by
  induction cs with
  | nil => intro k; rfl
  | cons c cs ih =>
    intro k
    have hc : c ≠ '/' := fun e => hs (e ▸ List.mem_cons_self _ _)
    have hs' : '/' ∉ cs := fun h => hs (List.mem_cons_of_mem _ h)
    simp only [List.enumFrom_cons, List.foldr_cons, ih hs' (k + 1)]
    cases cs with
    | nil =>
      have h0 : extStateAfter (k + 1) [] = path.initialExtState := rfl
      rw [h0, extStep_first k c hc]
      by_cases hd : c = '.'
      · have h2 : afterLastDot [c] = some [] := by simp [afterLastDot, hd]
        rw [extStateAfter_some _ _ _ _ h2]
        simp [hd]
      · have h2 : afterLastDot [c] = none := by simp [afterLastDot, hd]
        rw [extStateAfter_none _ _ _ h2]
        simp [hd]
    | cons c' cs' =>
      cases hal : afterLastDot (c' :: cs') with
      | none =>
        rw [extStateAfter_none _ _ _ hal, extStep_char _ _ _ _ _ _ hc (by omega)]
        by_cases hd : c = '.'
        · have h2 : afterLastDot (c :: c' :: cs') = some (c' :: cs') := by
            rw [afterLastDot_cons_none _ _ hal, if_pos hd]
          rw [extStateAfter_some _ _ _ _ h2]
          simp only [hd, and_self, if_true, List.length_cons, path.ExtState.mk.injEq, and_true,
            true_and]
          omega
        · have h2 : afterLastDot (c :: c' :: cs') = none := by
            rw [afterLastDot_cons_none _ _ hal, if_neg hd]
          rw [extStateAfter_none _ _ _ h2]
          simp only [hd, false_and, if_false, if_true, List.length_cons, path.ExtState.mk.injEq,
            and_true, true_and]
          omega
      | some e =>
        have hlen := afterLastDot_length _ _ hal
        simp only [List.length_cons] at hlen
        have h2 := afterLastDot_cons_some c _ _ hal
        have hsd : ((k + 1 + (cs'.length + 1) - e.length - 1 : Nat) : Int) ≠ -1 := by omega
        rw [extStateAfter_some _ _ _ _ hal, extStateAfter_some _ _ _ _ h2,
          extStep_char _ _ _ _ _ _ hc (by omega)]
        simp only [hsd, and_false, if_false, List.length_cons, path.ExtState.mk.injEq, and_true,
          true_and]
        refine ⟨by omega, by omega, ?_⟩
        have hne : ¬ (e.length + 1 = cs'.length + 1 + 1) := by omega
        simp [hne]

theorem foldl_extStep_done (l : List (Nat × Char)) : ∀ st : path.ExtState, st.done = true →
    l.foldl path.extStep st = st := by
  induction l with
  | nil => intro st _; rfl
  | cons ic l ih =>
    intro st h
    have : path.extStep st ic = st := by simp [path.extStep, h]
    rw [List.foldl_cons, this, ih st h]

theorem extStateAfter_flags (k : Nat) (c : Char) (cs : List Char) :
    (extStateAfter k (c :: cs)).done = false ∧ (extStateAfter k (c :: cs)).matchedSlash = false ∧
    (extStateAfter k (c :: cs)).startPart = 0 := by
  cases h : afterLastDot (c :: cs) with
  | none => rw [extStateAfter_none _ _ _ h]; simp
  | some e => rw [extStateAfter_some _ _ _ _ h]; simp

/-- The loop state of `path.extname` on `pre ++ name`, where `name` is the last segment: the
fields found on the name, with `startPart` at the start of the name. -/
theorem extState_full (pre : List Char) (c : Char) (cs : List Char) (hs : '/' ∉ c :: cs)
    (hpre : pre = [] ∨ ∃ q, pre = q ++ ['/']) :
    ∃ T, (List.enum (pre ++ c :: cs)).reverse.foldl path.extStep path.initialExtState = T ∧
      T.startDot = (extStateAfter pre.length (c :: cs)).startDot ∧
      T.stop = (extStateAfter pre.length (c :: cs)).stop ∧
      T.preDotState = (extStateAfter pre.length (c :: cs)).preDotState ∧
      T.startPart = pre.length := by
  have hname : (List.enumFrom pre.length (c :: cs)).reverse.foldl path.extStep
      path.initialExtState = extStateAfter pre.length (c :: cs) := by
    rw [List.foldl_reverse]
    exact extState_name (c :: cs) hs pre.length
  have hsplit : (List.enum (pre ++ c :: cs)).reverse.foldl path.extStep path.initialExtState =
      (List.enumFrom 0 pre).reverse.foldl path.extStep (extStateAfter pre.length (c :: cs)) := by
    rw [List.enum, List.enumFrom_append, List.reverse_append, List.foldl_append, Nat.zero_add,
      hname]
  refine ⟨_, hsplit, ?_⟩
  rcases hpre with hp | ⟨q, hq⟩
  · subst hp
    obtain ⟨_, _, hsp⟩ := extStateAfter_flags 0 c cs
    simp [hsp]
  · subst hq
    obtain ⟨hdone, hms, _⟩ := extStateAfter_flags (q.length + 1) c cs
    have hstep : path.extStep (extStateAfter (q.length + 1) (c :: cs)) (q.length, '/') =
        { extStateAfter (q.length + 1) (c :: cs) with
          startPart := (q.length : Int) + 1, done := true } := by
      simp [path.extStep, hdone, hms]
    rw [List.enumFrom_append, List.reverse_append]
    simp only [List.enumFrom_singleton, List.reverse_singleton, List.singleton_append,
      List.foldl_cons, Nat.zero_add, List.length_append, List.length_singleton, hstep]
    rw [foldl_extStep_done _ _ rfl]
    simp

/-- On a path whose last segment is `name`, `path.extname` gives the extension of the name. -/
theorem extname_last_segment (pre : List Char) (name : String) (hne : name.data ≠ [])
    (hs : '/' ∉ name.data) (hpre : pre = [] ∨ ∃ q, pre = q ++ ['/']) :
    path.extname (String.mk (pre ++ name.data)) = fileExtension name := by
  obtain ⟨c, cs, hname⟩ : ∃ c cs, name.data = c :: cs := by
    cases h : name.data with
    | nil => exact absurd h hne
    | cons c cs => exact ⟨c, cs, rfl⟩
  rw [hname] at hs
  obtain ⟨T, hT, hsd, hstop, hpds, hsp⟩ := extState_full pre c cs hs hpre
  have hext : path.extname (String.mk (pre ++ name.data)) =
      if T.startDot = -1 ∨ T.stop = -1 ∨ T.preDotState = 0 ∨
          (T.preDotState = 1 ∧ T.startDot = T.stop - 1 ∧ T.startDot = T.startPart + 1) then ""
      else String.mk (((pre ++ c :: cs).take T.stop.toNat).drop T.startDot.toNat) := by
    simp only [path.extname, hname, hT]
  rw [hext, hsd, hstop, hpds, hsp]
  unfold fileExtension
  rw [hname]
  simp only
  cases hcs : afterLastDot cs with
  | none =>
    by_cases hd : c = '.'
    · have h2 : afterLastDot (c :: cs) = some cs := by
        rw [afterLastDot_cons_none _ _ hcs, if_pos hd]
      rw [extStateAfter_some _ _ _ _ h2]
      simp
    · have h2 : afterLastDot (c :: cs) = none := by
        rw [afterLastDot_cons_none _ _ hcs, if_neg hd]
      rw [extStateAfter_none _ _ _ h2]
      simp
  | some e =>
    have h2 := afterLastDot_cons_some c _ _ hcs
    have hlen := afterLastDot_length _ _ hcs
    obtain ⟨front, hfront⟩ := afterLastDot_split _ _ hcs
    rw [extStateAfter_some _ _ _ _ h2]
    have hne1 : ¬ (e.length + 1 = cs.length + 1) := by omega
    have hflen : cs.length = front.length + (e.length + 1) := by
      rw [hfront]; simp
    by_cases hdd : c :: cs = ['.', '.']
    · have hc : c = '.' := (List.cons.inj hdd).1
      have hcs' : cs = ['.'] := (List.cons.inj hdd).2
      have he : e = [] := by
        rw [hcs'] at hcs
        simp [afterLastDot] at hcs
        exact hcs
      subst hc
      subst hcs'
      subst he
      simp only [hdd, if_true]
      apply if_pos
      refine Or.inr (Or.inr (Or.inr ⟨by simp, ?_, ?_⟩))
      · simp only [List.length_cons, List.length_nil]
        omega
      · simp only [List.length_cons, List.length_nil]
        omega
    · simp only [hdd, if_false]
      have hspecial : ¬ (c = '.' ∧ e.length = 0 ∧ cs.length = 1) := by
        rintro ⟨hc, he, hl⟩
        obtain ⟨x, hx⟩ := List.length_eq_one.1 hl
        subst hx
        have hx' : x = '.' := by
          by_contra hx'
          simp [afterLastDot, hx'] at hcs
        exact hdd (by rw [hc, hx'])
      have hpd : (if e.length + 1 = cs.length + 1 then (0 : Int)
          else if c = '.' then 1 else -1) ≠ 0 := by
        rw [if_neg hne1]
        split <;> decide
      rw [if_neg]
      · have hstop' : ((pre.length + (cs.length + 1) : Nat) : Int).toNat =
            (pre ++ c :: cs).length := by
          simp only [Int.toNat_ofNat, List.length_append, List.length_cons]
        have hsd' : ((pre.length + (cs.length + 1) - e.length - 1 : Nat) : Int).toNat =
            pre.length + (front.length + 1) := by
          simp only [Int.toNat_ofNat]
          omega
        rw [hstop', hsd', List.take_length, hfront]
        have : pre ++ c :: (front ++ '.' :: e) = (pre ++ c :: front) ++ '.' :: e := by simp
        rw [this]
        have hl : pre.length + (front.length + 1) = (pre ++ c :: front).length := by simp
        rw [hl, List.drop_left]
      · rintro (h | h | h | ⟨h1, h2, h3⟩)
        · omega
        · omega
        · exact hpd h
        · apply hspecial
          refine ⟨?_, by omega, by omega⟩
          by_contra hc
          rw [if_neg hne1, if_neg hc] at h1
          exact absurd h1 (by decide)

theorem absolutePath_last (segs : List String) (name : String) :
    ∃ pre, (pre = [] ∨ ∃ q, pre = q ++ ['/']) ∧
      absolutePath (segs ++ [name]) = String.mk (pre ++ name.data) := by
  by_cases h : segs = []
  · subst h
    exact ⟨['/'], Or.inr ⟨[], rfl⟩, by simp [absolutePath, intercalate_single]⟩
  · refine ⟨('/' :: ['/'].intercalate (segs.map String.data)) ++ ['/'], Or.inr ⟨_, rfl⟩, ?_⟩
    simp only [absolutePath, List.map_append, List.map_singleton]
    rw [intercalate_snoc _ (by simpa using h)]
    simp

/-- On the absolute path of a file, `path.extname` gives the extension of the file's name. -/
theorem extname_absolutePath (segs : List String) (name : String)
    (hne : name.data ≠ []) (hs : '/' ∉ name.data) :
    path.extname (absolutePath (segs ++ [name])) = fileExtension name := by
  obtain ⟨pre, hpre, heq⟩ := absolutePath_last segs name
  rw [heq, extname_last_segment pre name hne hs hpre]

/-! ## Scan then play, for names without a backslash -/

mutual
theorem files_onDisk (fs : FS) (root : List String) : ∀ (n : Node) (dir : List String),
    (∀ m ∈ dir, validName m) → Node.wellNamed n → Node.onDisk fs root dir n →
    Node.noFailure n = true →
    ∀ f ∈ Node.files dir n, (∀ m ∈ f.dir ++ [f.name], validName m) ∧
      fs.statSync (absolutePath (root ++ (f.dir ++ [f.name]))) = some f.stats
  | Node.file name stats statFails, dir, hdir, hwn, hod, hok => by
    intro f hf
    simp only [Node.files, List.mem_singleton] at hf
    subst hf
    simp only [Node.noFailure, Bool.not_eq_true'] at hok
    subst hok
    refine ⟨?_, by simpa [Node.onDisk] using hod⟩
    intro m hm
    rcases List.mem_append.1 hm with h | h
    · exact hdir m h
    · simp only [List.mem_singleton] at h
      exact h ▸ hwn
  | Node.dir name children readdirFails, dir, hdir, hwn, hod, hok => by
    intro f hf
    simp only [Node.noFailure, Bool.and_eq_true, Bool.not_eq_true'] at hok
    obtain ⟨h1, h2⟩ := hok
    subst h1
    simp only [Node.onDisk, Bool.false_eq_true, if_false] at hod
    refine allFiles_onDisk fs root children (dir ++ [name]) ?_ hwn.2 hod.2 h2 f hf
    intro m hm
    rcases List.mem_append.1 hm with h | h
    · exact hdir m h
    · simp only [List.mem_singleton] at h
      exact h ▸ hwn.1
  | Node.other name, dir, _, _, _, _ => by
    intro f hf
    simp [Node.files] at hf
theorem allFiles_onDisk (fs : FS) (root : List String) : ∀ (ns : List Node) (dir : List String),
    (∀ m ∈ dir, validName m) → Node.allWellNamed ns → Node.allOnDisk fs root dir ns →
    Node.allNoFailure ns = true →
    ∀ f ∈ Node.allFiles dir ns, (∀ m ∈ f.dir ++ [f.name], validName m) ∧
      fs.statSync (absolutePath (root ++ (f.dir ++ [f.name]))) = some f.stats
  | [], _, _, _, _, _ => by
    intro f hf
    simp [Node.allFiles] at hf
  | n :: ns, dir, hdir, hwn, hod, hok => by
    intro f hf
    simp only [Node.allNoFailure, Bool.and_eq_true] at hok
    simp only [Node.allFiles, List.mem_append] at hf
    rcases hf with hf | hf
    · exact files_onDisk fs root n dir hdir hwn.1 hod.1 hok.1 f hf
    · exact allFiles_onDisk fs root ns dir hdir hwn.2 hod.2 hok.2 f hf
end

theorem stat_of_statSync (fs : FS) (p : String) (stats : Stats)
    (h : fs.statSync p = some stats) : fs.stat p = Except.ok stats := by
  unfold FS.statSync at h
  split at h
  · rename_i s hs
    simp only [Option.some.injEq] at h
    rw [hs, h]
  · simp at h

theorem startsWith_absolutePath (root names : List String) :
    startsWith (absolutePath (root ++ names)) (absolutePath root) = true := by
  simp only [startsWith, absolutePath, List.isPrefixOf_iff_prefix, List.map_append]
  by_cases hr : root = []
  · subst hr
    exact ⟨['/'].intercalate (names.map String.data), by simp [intercalate_nil]⟩
  · by_cases hn : names = []
    · subst hn
      simp
    · rw [intercalate_append _ _ (by simpa using hr) (by simpa using hn)]
      exact ⟨'/' :: ['/'].intercalate (names.map String.data), by simp⟩

/-- A handler that meets a path outside the root, as a string, answers 403 and touches no
file. -/
theorem playHandler_forbidden (fs : FS) (MUSIC_DIR filePathParam : String)
    (range : Option String)
    (hout : startsWith (path.join [MUSIC_DIR, filePathParam]) MUSIC_DIR = false) :
    playHandler fs MUSIC_DIR filePathParam range =
      { calls := [],
        response := some
          { status := 403, headers := [], body := Body.text "Forbidden: Access is denied." } } := by
  simp [playHandler, hout]

/-- Scan then play.  When nothing fails, every file of the tree none of whose names holds a
backslash is served whole by `/play` under the path the scan records for it: 200 with the
file's size as `Content-Length`. -/
theorem scan_then_play_plain_names (fs : FS) (root : List String) (children : List Node)
    (hroot : ∀ n ∈ root, validName n) (hwn : Node.allWellNamed children)
    (hok : Node.allNoFailure children = true) (hod : Library.onDisk fs root children false)
    (f : DiskFile) (hf : f ∈ Node.allFiles [] children)
    (hplain : ∀ n ∈ f.dir ++ [f.name], '\\' ∉ n.data) :
    playHandler fs (absolutePath root) (DiskFile.entry f).path none =
      { calls := [FsCall.stat (absolutePath (root ++ (f.dir ++ [f.name]))),
          FsCall.createReadStream (absolutePath (root ++ (f.dir ++ [f.name]))) none],
        response := some
          { status := 200,
            headers :=
              [("Content-Length", HeaderValue.num (JSNumber.int f.stats.size)),
               ("Content-Type",
                  HeaderValue.str (contentTypeOf (absolutePath (root ++ (f.dir ++ [f.name])))))],
            body := Body.stream (absolutePath (root ++ (f.dir ++ [f.name]))) none } } := by
  simp only [Library.onDisk, Bool.false_eq_true, if_false] at hod
  obtain ⟨hnames, hstat⟩ := allFiles_onDisk fs root children [] (by simp) hwn hod.2 hok f hf
  have hpath : (DiskFile.entry f).path = relativePath (f.dir ++ [f.name]) := by
    apply replaceBackslashes_id
    apply intercalate_not_mem
    intro s hs
    obtain ⟨n, hn, rfl⟩ := List.mem_map.1 hs
    exact hplain n hn
  have hjoin := join_absolute root (f.dir ++ [f.name]) hroot hnames
  rw [hpath]
  simp [playHandler, hjoin, startsWith_absolutePath, stat_of_statSync fs _ _ hstat,
    Option.filter]

/-! ## The `/play` handler: claims -/

/-- C1 (the code at the failing input).  With root `/srv/music` the requested path
`../music2/x.mp3` joins to `/srv/music2/x.mp3`, outside the root; the string still starts with
`/srv/music`, so the handler does not answer 403: it stats the sibling's file and serves it. -/
theorem play_sibling_directory_served :
    path.join ["/srv/music", "../music2/x.mp3"] = "/srv/music2/x.mp3" ∧
    startsWith "/srv/music2/x.mp3" "/srv/music" = true ∧
    playHandler siblingFS "/srv/music" "../music2/x.mp3" none =
      { calls := [FsCall.stat "/srv/music2/x.mp3",
          FsCall.createReadStream "/srv/music2/x.mp3" none],
        response := some
          { status := 200,
            headers := [("Content-Length", HeaderValue.num (JSNumber.int 5)),
                        ("Content-Type", HeaderValue.str "audio/mpeg")],
            body := Body.stream "/srv/music2/x.mp3" none } } := by
  decide

/-- C2 (counterexample).  A file of 1000 bytes asked with `Range: bytes=2000-3000` is answered
206 with `Content-Range: bytes 2000-3000/1000`, not 416 with `bytes */1000`. -/
theorem play_range_beyond_eof_is_206 :
    (playHandler thousandFS "/music" "a.mp3" (some "bytes=2000-3000")).response =
      some
        { status := 206,
          headers := [("Content-Range", HeaderValue.str "bytes 2000-3000/1000"),
                      ("Accept-Ranges", HeaderValue.str "bytes"),
                      ("Content-Length", HeaderValue.num (JSNumber.int 1001)),
                      ("Content-Type", HeaderValue.str "audio/mpeg")],
          body := Body.stream "/music/a.mp3" (some (JSNumber.int 2000, JSNumber.int 3000)) } ∧
    ((playHandler thousandFS "/music" "a.mp3" (some "bytes=2000-3000")).response.map
      Response.status) ≠ some 416 := by
  decide

/-- C2 (amended).  For an existing file of any size `S` and a header `bytes=a-b` with `a ≤ b`,
the handler answers 206 with `Content-Range: bytes a-b/S` and `Content-Length: b - a + 1`,
whether or not `a` and `b` lie within `[0, S - 1]`. -/
theorem play_range_not_checked_against_size (fs : FS) (MUSIC_DIR filePathParam : String)
    (stats : Stats) (a b : Nat)
    (hin : startsWith (path.join [MUSIC_DIR, filePathParam]) MUSIC_DIR = true)
    (hstat : fs.stat (path.join [MUSIC_DIR, filePathParam]) = Except.ok stats)
    (hab : a ≤ b) (hb : b < 2 ^ 53) :
    playHandler fs MUSIC_DIR filePathParam (some ("bytes=" ++ Nat.repr a ++ "-" ++ Nat.repr b)) =
      rangeResponse (path.join [MUSIC_DIR, filePathParam])
        (contentTypeOf (path.join [MUSIC_DIR, filePathParam])) stats.size a b := by
  have h := bytes_pair_eq a b ""
  have hne := bytes_pair_ne a b ""
  simp only [String.append_empty] at h hne
  rw [playHandler_range fs _ _ stats _ hin hstat hne, h]
  exact rangeBranch_pair _ _ _ a b _ hab hb (Or.inl rfl)

theorem play_range_not_checked_against_size_witness :
    playHandler thousandFS "/music" "a.mp3"
        (some ("bytes=" ++ Nat.repr 5000 ++ "-" ++ Nat.repr 5009)) =
      rangeResponse "/music/a.mp3" "audio/mpeg" 1000 5000 5009 :=
  play_range_not_checked_against_size thousandFS "/music" "a.mp3" { size := 1000, mtime := 0 }
    5000 5009 (by decide) (by rfl) (by decide) (by decide)

/-- C3 (counterexample).  The multi-range header `bytes=0-99,200-299` is answered 206 with
`Content-Range: bytes 0-99/1000`, not 416. -/
theorem play_multi_range_is_206 :
    (playHandler thousandFS "/music" "a.mp3" (some "bytes=0-99,200-299")).response =
      some
        { status := 206,
          headers := [("Content-Range", HeaderValue.str "bytes 0-99/1000"),
                      ("Accept-Ranges", HeaderValue.str "bytes"),
                      ("Content-Length", HeaderValue.num (JSNumber.int 100)),
                      ("Content-Type", HeaderValue.str "audio/mpeg")],
          body := Body.stream "/music/a.mp3" (some (JSNumber.int 0, JSNumber.int 99)) } ∧
    ((playHandler thousandFS "/music" "a.mp3" (some "bytes=0-99,200-299")).response.map
      Response.status) ≠ some 416 := by
  decide

/-- C3 (amended).  For an existing file and any non-empty `Range` header the handler never
answers 416: every response it writes is a 206.  A multi-range header `bytes=a-b,<more>` with
`a ≤ b < 2 ^ 53` is answered as the single range `a-b`. -/
theorem play_range_never_416 (fs : FS) (MUSIC_DIR filePathParam : String) (stats : Stats)
    (range more : String) (a b : Nat)
    (hin : startsWith (path.join [MUSIC_DIR, filePathParam]) MUSIC_DIR = true)
    (hstat : fs.stat (path.join [MUSIC_DIR, filePathParam]) = Except.ok stats)
    (hrange : range.data ≠ []) (hab : a ≤ b) (hb : b < 2 ^ 53) :
    (∀ r, (playHandler fs MUSIC_DIR filePathParam (some range)).response = some r →
      r.status = 206) ∧
    playHandler fs MUSIC_DIR filePathParam
        (some ("bytes=" ++ Nat.repr a ++ "-" ++ Nat.repr b ++ ("," ++ more))) =
      rangeResponse (path.join [MUSIC_DIR, filePathParam])
        (contentTypeOf (path.join [MUSIC_DIR, filePathParam])) stats.size a b := by
  constructor
  · intro r hr
    rw [playHandler_range fs _ _ stats _ hin hstat hrange] at hr
    unfold rangeBranch at hr
    simp only at hr
    split at hr
    · simp only [Option.some.injEq] at hr
      rw [← hr]
    · simp at hr
  · rw [playHandler_range fs _ _ stats _ hin hstat (bytes_pair_ne a b _), bytes_pair_eq]
    refine rangeBranch_pair _ _ _ a b _ hab hb (Or.inr ⟨',', more.data, ?_, by decide⟩)
    simp

theorem play_range_never_416_witness :
    ((∀ r, (playHandler thousandFS "/music" "a.mp3" (some "bytes=7-9,20-30")).response = some r →
      r.status = 206) ∧
    playHandler thousandFS "/music" "a.mp3"
        (some ("bytes=" ++ Nat.repr 0 ++ "-" ++ Nat.repr 99 ++ ("," ++ "200-299"))) =
      rangeResponse "/music/a.mp3" "audio/mpeg" 1000 0 99) ∧
    (playHandler thousandFS "/music" "a.mp3" (some "bytes=7-9,20-30")).response =
      some
        { status := 206,
          headers := [("Content-Range", HeaderValue.str "bytes 7-9/1000"),
                      ("Accept-Ranges", HeaderValue.str "bytes"),
                      ("Content-Length", HeaderValue.num (JSNumber.int 3)),
                      ("Content-Type", HeaderValue.str "audio/mpeg")],
          body := Body.stream "/music/a.mp3" (some (JSNumber.int 7, JSNumber.int 9)) } :=
  ⟨play_range_never_416 thousandFS "/music" "a.mp3" { size := 1000, mtime := 0 }
    "bytes=7-9,20-30" "200-299" 0 99 (by decide) (by rfl) (by decide) (by decide) (by decide),
    by decide⟩

/-- C4.  For an existing file of size `S` and `0 ≤ a ≤ b ≤ S - 1`, the header `bytes=a-b` is
answered 206 with `Content-Range: bytes a-b/S`, `Accept-Ranges: bytes`,
`Content-Length: b - a + 1`, the body being the stream opened on the inclusive span `[a, b]`;
and the header `bytes=a-` is answered the same way with `b = S - 1`. -/
theorem play_satisfiable_range (fs : FS) (MUSIC_DIR filePathParam : String) (stats : Stats)
    (a b : Nat)
    (hin : startsWith (path.join [MUSIC_DIR, filePathParam]) MUSIC_DIR = true)
    (hstat : fs.stat (path.join [MUSIC_DIR, filePathParam]) = Except.ok stats)
    (hsafe : stats.size ≤ 2 ^ 53) (hab : a ≤ b) (hb : b + 1 ≤ stats.size) :
    playHandler fs MUSIC_DIR filePathParam (some ("bytes=" ++ Nat.repr a ++ "-" ++ Nat.repr b)) =
      rangeResponse (path.join [MUSIC_DIR, filePathParam])
        (contentTypeOf (path.join [MUSIC_DIR, filePathParam])) stats.size a b ∧
    playHandler fs MUSIC_DIR filePathParam (some ("bytes=" ++ Nat.repr a ++ "-")) =
      rangeResponse (path.join [MUSIC_DIR, filePathParam])
        (contentTypeOf (path.join [MUSIC_DIR, filePathParam])) stats.size a (stats.size - 1) := by
  constructor
  · have h := bytes_pair_eq a b ""
    have hne := bytes_pair_ne a b ""
    simp only [String.append_empty] at h hne
    rw [playHandler_range fs _ _ stats _ hin hstat hne, h]
    exact rangeBranch_pair _ _ _ a b _ hab (by omega) (Or.inl rfl)
  · have hne : ("bytes=" ++ Nat.repr a ++ "-").data ≠ [] := by
      rw [bytes_open_eq]; simp
    rw [playHandler_range fs _ _ stats _ hin hstat hne, bytes_open_eq]
    exact rangeBranch_open _ _ _ a (by omega) hsafe

theorem play_satisfiable_range_witness :
    (playHandler thousandFS "/music" "a.mp3"
        (some ("bytes=" ++ Nat.repr 100 ++ "-" ++ Nat.repr 199)) =
      rangeResponse "/music/a.mp3" "audio/mpeg" 1000 100 199 ∧
    playHandler thousandFS "/music" "a.mp3" (some ("bytes=" ++ Nat.repr 100 ++ "-")) =
      rangeResponse "/music/a.mp3" "audio/mpeg" 1000 100 999) ∧
    rangeResponse "/music/a.mp3" "audio/mpeg" 1000 100 199 =
      { calls := [FsCall.stat "/music/a.mp3",
          FsCall.createReadStream "/music/a.mp3" (some (JSNumber.int 100, JSNumber.int 199))],
        response := some
          { status := 206,
            headers := [("Content-Range", HeaderValue.str "bytes 100-199/1000"),
                        ("Accept-Ranges", HeaderValue.str "bytes"),
                        ("Content-Length", HeaderValue.num (JSNumber.int 100)),
                        ("Content-Type", HeaderValue.str "audio/mpeg")],
            body := Body.stream "/music/a.mp3"
              (some (JSNumber.int 100, JSNumber.int 199)) } } :=
  ⟨play_satisfiable_range thousandFS "/music" "a.mp3" { size := 1000, mtime := 0 } 100 199
    (by decide) (by rfl) (by decide) (by decide) (by decide), by decide⟩

/-- C5.  For an existing file `name`, of size `S`, in the directory `dirs` below the music
directory, requested without a `Range` header by its relative path, or by any path that joins
to the file, the handler answers 200 with `Content-Length: S` and pipes the whole file; the
content type is the table entry of the name's lower-cased extension, and
`application/octet-stream` when the table has none.  Whatever the extension, the answer is
200. -/
theorem play_whole_file (fs : FS) (root dirs : List String) (name : String) (stats : Stats)
    (hroot : ∀ n ∈ root, validName n) (hdirs : ∀ n ∈ dirs, validName n)
    (hname : validName name)
    (hstat : fs.stat (absolutePath (root ++ (dirs ++ [name]))) = Except.ok stats) :
    playHandler fs (absolutePath root) (relativePath (dirs ++ [name])) none =
      wholeFile (absolutePath (root ++ (dirs ++ [name]))) (expectedContentType name)
        stats.size ∧
    ∀ filePathParam : String,
      path.join [absolutePath root, filePathParam] = absolutePath (root ++ (dirs ++ [name])) →
      playHandler fs (absolutePath root) filePathParam none =
        wholeFile (absolutePath (root ++ (dirs ++ [name]))) (expectedContentType name)
          stats.size := by
  have hct : contentTypeOf (absolutePath (root ++ (dirs ++ [name]))) =
      expectedContentType name := by
    unfold contentTypeOf expectedContentType
    rw [← List.append_assoc, extname_absolutePath (root ++ dirs) name hname.1 hname.2.1]
    simp only [toLowerCase]
    generalize String.mk (List.map Char.toLower (fileExtension name).data) = ext
    by_cases h1 : ext = ".mp3"
    · subst h1; rfl
    by_cases h2 : ext = ".flac"
    · subst h2; rfl
    by_cases h3 : ext = ".wav"
    · subst h3; rfl
    by_cases h4 : ext = ".ogg"
    · subst h4; rfl
    by_cases h5 : ext = ".m4a"
    · subst h5; rfl
    have e1 : (ext == ".mp3") = false := by simpa using h1
    have e2 : (ext == ".flac") = false := by simpa using h2
    have e3 : (ext == ".wav") = false := by simpa using h3
    have e4 : (ext == ".ogg") = false := by simpa using h4
    have e5 : (ext == ".m4a") = false := by simpa using h5
    simp [MIME_TYPES, List.lookup, e1, e2, e3, e4, e5, h1, h2, h3, h4, h5]
  have hgen : ∀ filePathParam : String,
      path.join [absolutePath root, filePathParam] = absolutePath (root ++ (dirs ++ [name])) →
      playHandler fs (absolutePath root) filePathParam none =
        wholeFile (absolutePath (root ++ (dirs ++ [name]))) (expectedContentType name)
          stats.size := by
    intro filePathParam hjoin
    simp [playHandler, hjoin, startsWith_absolutePath, hstat, Option.filter, hct, wholeFile]
  refine ⟨hgen _ ?_, hgen⟩
  apply join_absolute root (dirs ++ [name]) hroot
  intro n hn
  rcases List.mem_append.1 hn with h | h
  · exact hdirs n h
  · simp only [List.mem_singleton] at h
    exact h ▸ hname

theorem play_whole_file_witness :
    (playHandler (exampleFS none false) (absolutePath ["music"]) (relativePath ["rock", "b.FLAC"])
        none =
      wholeFile (absolutePath (["music"] ++ (["rock"] ++ ["b.FLAC"])))
        (expectedContentType "b.FLAC") 200 ∧
    ∀ filePathParam : String,
      path.join [absolutePath ["music"], filePathParam] =
        absolutePath (["music"] ++ (["rock"] ++ ["b.FLAC"])) →
      playHandler (exampleFS none false) (absolutePath ["music"]) filePathParam none =
        wholeFile (absolutePath (["music"] ++ (["rock"] ++ ["b.FLAC"])))
          (expectedContentType "b.FLAC") 200) ∧
    wholeFile (absolutePath (["music"] ++ (["rock"] ++ ["b.FLAC"])))
        (expectedContentType "b.FLAC") 200 =
      { calls := [FsCall.stat "/music/rock/b.FLAC",
          FsCall.createReadStream "/music/rock/b.FLAC" none],
        response := some
          { status := 200,
            headers := [("Content-Length", HeaderValue.num (JSNumber.int 200)),
                        ("Content-Type", HeaderValue.str "audio/flac")],
            body := Body.stream "/music/rock/b.FLAC" none } } ∧
    playHandler (exampleFS none false) "/music" "rock/b.FLAC" none =
      { calls := [FsCall.stat "/music/rock/b.FLAC",
          FsCall.createReadStream "/music/rock/b.FLAC" none],
        response := some
          { status := 200,
            headers := [("Content-Length", HeaderValue.num (JSNumber.int 200)),
                        ("Content-Type", HeaderValue.str "audio/flac")],
            body := Body.stream "/music/rock/b.FLAC" none } } ∧
    playHandler (exampleFS none false) "/music" "jazz/../rock/notes.txt" none =
      { calls := [FsCall.stat "/music/rock/notes.txt",
          FsCall.createReadStream "/music/rock/notes.txt" none],
        response := some
          { status := 200,
            headers := [("Content-Length", HeaderValue.num (JSNumber.int 5)),
                        ("Content-Type", HeaderValue.str "application/octet-stream")],
            body := Body.stream "/music/rock/notes.txt" none } } :=
  ⟨play_whole_file (exampleFS none false) ["music"] ["rock"] "b.FLAC" { size := 200, mtime := 10 }
    (by decide) (by decide) (by decide) (by rfl), by decide, by decide, by decide⟩

/-- C9 (the code at the failing input).  A file named `a\b.mp3` in the root is listed with the
path `a/b.mp3`; requesting that path stats `/music/a/b.mp3`, which does not exist, and the
answer is 404 instead of 200 with the file's 12 bytes. -/
theorem scan_then_play_backslash_name :
    findMusicFiles backslashFS "/music" 1 "" = some [{ path := "a/b.mp3", mtime := 7 }] ∧
    playHandler backslashFS "/music" "a/b.mp3" none =
      { calls := [FsCall.stat "/music/a/b.mp3"],
        response := some
          { status := 404, headers := [], body := Body.text "File not found." } } := by
  decide

/-! ## The scan and the listing: claims -/

/-- C6 (the code at the failing input).  The music directory `/music` holds one regular file
named `a\b.mp3`, and no call fails.  The scan returns one entry for it, but its path is
`a/b.mp3`, not the file's root-relative path `a\b.mp3` that the spec asks for. -/
theorem scan_backslash_name_path :
    Library.onDisk backslashFS ["music"]
      [Node.file "a\\b.mp3" { size := 12, mtime := 7 } false] false ∧
    findMusicFiles backslashFS (absolutePath ["music"]) 1 "" =
      some [{ path := "a/b.mp3", mtime := 7 }] ∧
    expectedEntries [Node.file "a\\b.mp3" { size := 12, mtime := 7 } false] =
      [{ path := "a\\b.mp3", mtime := 7 }] ∧
    findMusicFiles backslashFS (absolutePath ["music"]) 1 "" ≠
      some (expectedEntries [Node.file "a\\b.mp3" { size := 12, mtime := 7 } false]) := by
  refine ⟨?_, by decide, by decide, by decide⟩
  simp only [Library.onDisk, Node.allOnDisk, Node.onDisk]
  decide

/-- When every `readdirSync` and `statSync` succeeds, `findMusicFiles` returns the entries of
lines 51-54 for the regular files of the tree, at any depth, whose lower-cased extension is
supported, in directory order, and nothing else. -/
theorem scan_records_music_files (fs : FS) (root : List String) (children : List Node)
    (fuel : Nat) (hroot : ∀ n ∈ root, validName n) (hwn : Node.allWellNamed children)
    (hok : Node.allNoFailure children = true) (hod : Library.onDisk fs root children false)
    (hfuel : Node.depthAll children < fuel) :
    findMusicFiles fs (absolutePath root) fuel "" = some (musicEntries children) := by
  rw [findMusicFiles_scanAll fs root children false fuel hroot hwn hod hfuel]
  simp [musicEntries, scanAll_noFailure [] children hok]

/-- When every `readdirSync` and `statSync` succeeds and no name of the tree holds a backslash,
`findMusicFiles` returns what the spec asks for: exactly one entry per regular file, at any
depth, whose lower-cased extension is supported, with the file's root-relative path and its
modification time. -/
theorem scan_finds_music_files (fs : FS) (root : List String) (children : List Node) (fuel : Nat)
    (hroot : ∀ n ∈ root, validName n) (hwn : Node.allWellNamed children)
    (hok : Node.allNoFailure children = true) (hod : Library.onDisk fs root children false)
    (hfuel : Node.depthAll children < fuel)
    (hplain : ∀ f ∈ Node.allFiles [] children, ∀ n ∈ f.dir ++ [f.name], '\\' ∉ n.data) :
    findMusicFiles fs (absolutePath root) fuel "" = some (expectedEntries children) := by
  rw [scan_records_music_files fs root children fuel hroot hwn hok hod hfuel]
  simp only [musicEntries, expectedEntries, Option.some.injEq]
  apply List.map_congr_left
  intro f hf
  have hmem : f ∈ Node.allFiles [] children := (List.mem_filter.1 hf).1
  simp only [DiskFile.entry, DiskFile.expectedEntry, TrackEntry.mk.injEq, and_true]
  apply replaceBackslashes_id
  apply intercalate_not_mem
  intro s hs
  obtain ⟨n, hn, rfl⟩ := List.mem_map.1 hs
  exact hplain f hmem n hn

theorem scan_finds_music_files_example :
    findMusicFiles (exampleFS (some [{ name := "e.wav", isDirectory := false, isFile := true }])
        false) (absolutePath ["music"]) 3 "" =
      some (expectedEntries (exampleLibrary false false)) ∧
    expectedEntries (exampleLibrary false false) =
      [{ path := "a.mp3", mtime := 30 }, { path := "rock/b.FLAC", mtime := 10 },
       { path := "rock/live/c.ogg", mtime := 20 }, { path := "locked/e.wav", mtime := 50 },
       { path := "jazz/d.m4a", mtime := 40 }, { path := "jazz/f.mp3", mtime := 60 }] :=
  ⟨scan_finds_music_files
    (exampleFS (some [{ name := "e.wav", isDirectory := false, isFile := true }]) false)
    ["music"] (exampleLibrary false false) 3 (by decide)
    (by simp only [exampleLibrary, Node.allWellNamed, Node.wellNamed]; decide)
    (by decide)
    (by simp only [exampleLibrary, Library.onDisk, Node.allOnDisk, Node.onDisk]; decide)
    (by decide) (by decide), by decide⟩

/-- C7.  The list the `GET /` handler hands to the page is a permutation of what
`findMusicFiles` returned and is ordered by modification time, newest first: each entry's
mtime is at least that of the next one.  Three files with times `T1 > T2 > T3` come out in
that order. -/
theorem index_newest_first (fs : FS) (MUSIC_DIR : String) (fuel : Nat) (found : List TrackEntry)
    (hscan : findMusicFiles fs MUSIC_DIR fuel "" = some found) :
    ∃ files, indexHandler fs MUSIC_DIR fuel = some files ∧ files.Perm found ∧
      files.Chain' (fun earlier later => earlier.mtime ≥ later.mtime) ∧
      ∀ e1 e2 e3 : TrackEntry, found.Perm [e1, e2, e3] → e1.mtime > e2.mtime →
        e2.mtime > e3.mtime → files = [e1, e2, e3] := by
  haveI : IsTotal TrackEntry (fun a b => compareMtime a b ≤ 0) :=
    ⟨fun a b => by simp only [compareMtime]; omega⟩
  haveI : IsTrans TrackEntry (fun a b => compareMtime a b ≤ 0) :=
    ⟨fun a b c h1 h2 => by simp only [compareMtime] at *; omega⟩
  have hperm : (arraySort compareMtime found).Perm found := List.perm_insertionSort _ found
  have hsorted : (arraySort compareMtime found).Pairwise
      (fun earlier later => earlier.mtime ≥ later.mtime) := by
    have := List.sorted_insertionSort (fun a b : TrackEntry => compareMtime a b ≤ 0) found
    refine List.Pairwise.imp ?_ this
    intro a b h
    simp only [compareMtime] at h
    omega
  refine ⟨arraySort compareMtime found, by simp [indexHandler, hscan], hperm,
    hsorted.chain', ?_⟩
  intro e1 e2 e3 h3 h12 h23
  haveI : IsAntisymm TrackEntry (fun a b => a.mtime > b.mtime) :=
    ⟨fun a b h1 h2 => absurd h1 (by omega)⟩
  have hdist : [e1, e2, e3].Pairwise (fun a b => a.mtime ≠ b.mtime) := by
    simp only [List.pairwise_cons, List.mem_cons, List.mem_singleton, List.not_mem_nil,
      forall_eq_or_imp, forall_eq, List.Pairwise.nil, and_true, false_imp_iff, implies_true]
    omega
  have hdist' : (arraySort compareMtime found).Pairwise (fun a b => a.mtime ≠ b.mtime) :=
    ((hperm.trans h3).pairwise_iff (fun {a b} h => Ne.symm h)).2 hdist
  have hstrict : (arraySort compareMtime found).Pairwise (fun a b => a.mtime > b.mtime) := by
    refine List.Pairwise.imp ?_ (hsorted.and hdist')
    intro a b h
    omega
  have hgoal : [e1, e2, e3].Pairwise (fun a b => a.mtime > b.mtime) := by
    simp only [List.pairwise_cons, List.mem_cons, List.mem_singleton, List.not_mem_nil,
      forall_eq_or_imp, forall_eq, List.Pairwise.nil, and_true, false_imp_iff, implies_true]
    omega
  exact List.eq_of_perm_of_sorted (hperm.trans h3) hstrict hgoal

theorem index_newest_first_witness :
    (∃ files, indexHandler (exampleFS none true) "/music" 3 = some files ∧
      files.Perm [{ path := "a.mp3", mtime := 30 }, { path := "rock/b.FLAC", mtime := 10 },
        { path := "rock/live/c.ogg", mtime := 20 }] ∧
      files.Chain' (fun earlier later => earlier.mtime ≥ later.mtime) ∧
      ∀ e1 e2 e3 : TrackEntry,
        List.Perm [{ path := "a.mp3", mtime := 30 }, { path := "rock/b.FLAC", mtime := 10 },
          { path := "rock/live/c.ogg", mtime := 20 }] [e1, e2, e3] →
        e1.mtime > e2.mtime → e2.mtime > e3.mtime → files = [e1, e2, e3]) ∧
    indexHandler (exampleFS none true) "/music" 3 =
      some [{ path := "a.mp3", mtime := 30 }, { path := "rock/live/c.ogg", mtime := 20 },
        { path := "rock/b.FLAC", mtime := 10 }] :=
  ⟨index_newest_first (exampleFS none true) "/music" 3
    [{ path := "a.mp3", mtime := 30 }, { path := "rock/b.FLAC", mtime := 10 },
      { path := "rock/live/c.ogg", mtime := 20 }] (by decide), by decide⟩

/-- C8.  When directories of the tree cannot be read and every other call succeeds,
`findMusicFiles` returns a result, the same as for the tree in which each unreadable directory is
empty: one entry for every music file outside the unreadable directories, whether listed before
or after them. -/
theorem scan_skips_unreadable_directory (fs fs' : FS) (root : List String)
    (children : List Node) (fuel : Nat)
    (hroot : ∀ n ∈ root, validName n) (hwn : Node.allWellNamed children)
    (hstats : Node.allStatsSucceed children = true)
    (hod : Library.onDisk fs root children false)
    (hod' : Library.onDisk fs' root (Node.allEmptied children) false)
    (hfuel : Node.depthAll children < fuel) :
    findMusicFiles fs (absolutePath root) fuel "" =
      findMusicFiles fs' (absolutePath root) fuel "" ∧
    findMusicFiles fs (absolutePath root) fuel "" =
      some (musicEntries (Node.allEmptied children)) := by
  have h1 := findMusicFiles_scanAll fs root children false fuel hroot hwn hod hfuel
  have h2 := findMusicFiles_scanAll fs' root (Node.allEmptied children) false fuel hroot
    (allEmptied_wellNamed children hwn) hod'
    (lt_of_le_of_lt (allEmptied_depth children) hfuel)
  have h3 := scanAll_emptied [] children hstats
  have h4 := scanAll_noFailure [] (Node.allEmptied children)
    (allEmptied_noFailure children hstats)
  simp only [Bool.false_eq_true, if_false] at h1 h2
  refine ⟨by rw [h1, h2, h3], ?_⟩
  rw [h1, ← h3, h4]
  rfl

theorem scan_skips_unreadable_directory_witness :
    (findMusicFiles (exampleFS none false) (absolutePath ["music"]) 3 "" =
      findMusicFiles (exampleFS (some []) false) (absolutePath ["music"]) 3 "" ∧
    findMusicFiles (exampleFS none false) (absolutePath ["music"]) 3 "" =
      some (musicEntries (Node.allEmptied (exampleLibrary true false)))) ∧
    musicEntries (Node.allEmptied (exampleLibrary true false)) =
      [{ path := "a.mp3", mtime := 30 }, { path := "rock/b.FLAC", mtime := 10 },
       { path := "rock/live/c.ogg", mtime := 20 }, { path := "jazz/d.m4a", mtime := 40 },
       { path := "jazz/f.mp3", mtime := 60 }] :=
  ⟨scan_skips_unreadable_directory (exampleFS none false) (exampleFS (some []) false) ["music"]
    (exampleLibrary true false) 3 (by decide)
    (by simp only [exampleLibrary, Node.allWellNamed, Node.wellNamed]; decide)
    (by decide)
    (by simp only [exampleLibrary, Library.onDisk, Node.allOnDisk, Node.onDisk]; decide)
    (by
      simp only [exampleLibrary, Node.allEmptied, Node.emptied, Bool.false_eq_true, if_false,
        if_true, Library.onDisk, Node.allOnDisk, Node.onDisk]
      decide)
    (by decide), by decide⟩

/-- C10.  Whatever `readdirSync` and `statSync` calls fail, `findMusicFiles` returns a result,
and it is a sublist of the one it returns for the same tree when no call fails.  In the loop
over a directory, a failing `statSync` of a music file ends the loop: the result is what the
loop gathers from the entries before that file. -/
theorem scan_only_loses_entries (fs fs' : FS) (root : List String) (children : List Node)
    (rootFails : Bool) (fuel : Nat)
    (hroot : ∀ n ∈ root, validName n) (hwn : Node.allWellNamed children)
    (hod : Library.onDisk fs root children rootFails)
    (hod' : Library.onDisk fs' root (Node.allHealed children) false)
    (hfuel : Node.depthAll children < fuel) :
    (∃ found complete,
      findMusicFiles fs (absolutePath root) fuel "" = some found ∧
      findMusicFiles fs' (absolutePath root) fuel "" = some complete ∧
      found.Sublist complete) ∧
    ∀ (recurse : String → Option (List TrackEntry)) (currentDir : String)
      (earlier later : List Dirent) (entry : Dirent) (files : List TrackEntry),
      entry.isDirectory = false → isMusicFile entry = true →
      fs.statSync (path.join [absolutePath root, path.join [currentDir, entry.name]]) = none →
      forLoop recurse fs (absolutePath root) currentDir (earlier ++ entry :: later) files =
        forLoop recurse fs (absolutePath root) currentDir earlier files := by
  constructor
  · have h1 := findMusicFiles_scanAll fs root children rootFails fuel hroot hwn hod hfuel
    have h2 := findMusicFiles_scanAll fs' root (Node.allHealed children) false fuel hroot
      (allHealed_wellNamed children hwn) hod' (by rw [allHealed_depth]; exact hfuel)
    simp only [Bool.false_eq_true, if_false] at h2
    refine ⟨_, _, h1, h2, ?_⟩
    cases rootFails with
    | true => simp
    | false => simpa using scanAll_healed [] children
  · intro recurse currentDir earlier later entry files hdir hmusic hstat
    exact forLoop_abort recurse fs _ currentDir entry later hdir hmusic hstat earlier files

theorem scan_only_loses_entries_witness :
    ((∃ found complete,
      findMusicFiles (exampleFS none true) (absolutePath ["music"]) 3 "" = some found ∧
      findMusicFiles
        (exampleFS (some [{ name := "e.wav", isDirectory := false, isFile := true }]) false)
        (absolutePath ["music"]) 3 "" = some complete ∧
      found.Sublist complete) ∧
    ∀ (recurse : String → Option (List TrackEntry)) (currentDir : String)
      (earlier later : List Dirent) (entry : Dirent) (files : List TrackEntry),
      entry.isDirectory = false → isMusicFile entry = true →
      (exampleFS none true).statSync
        (path.join [absolutePath ["music"], path.join [currentDir, entry.name]]) = none →
      forLoop recurse (exampleFS none true) (absolutePath ["music"]) currentDir
          (earlier ++ entry :: later) files =
        forLoop recurse (exampleFS none true) (absolutePath ["music"]) currentDir earlier
          files) ∧
    findMusicFiles (exampleFS none true) (absolutePath ["music"]) 3 "" =
      some [{ path := "a.mp3", mtime := 30 }, { path := "rock/b.FLAC", mtime := 10 },
        { path := "rock/live/c.ogg", mtime := 20 }] ∧
    findMusicFiles
        (exampleFS (some [{ name := "e.wav", isDirectory := false, isFile := true }]) false)
        (absolutePath ["music"]) 3 "" =
      some [{ path := "a.mp3", mtime := 30 }, { path := "rock/b.FLAC", mtime := 10 },
        { path := "rock/live/c.ogg", mtime := 20 }, { path := "locked/e.wav", mtime := 50 },
        { path := "jazz/d.m4a", mtime := 40 }, { path := "jazz/f.mp3", mtime := 60 }] :=
  ⟨scan_only_loses_entries (exampleFS none true)
    (exampleFS (some [{ name := "e.wav", isDirectory := false, isFile := true }]) false)
    ["music"] (exampleLibrary true true) false 3 (by decide)
    (by simp only [exampleLibrary, Node.allWellNamed, Node.wellNamed]; decide)
    (by simp only [exampleLibrary, Library.onDisk, Node.allOnDisk, Node.onDisk]; decide)
    (by
      simp only [exampleLibrary, Node.allHealed, Node.healed, Library.onDisk, Node.allOnDisk,
        Node.onDisk]
      decide)
    (by decide), by decide, by decide⟩

end MusicInspector
